import Mathlib

/-!
Verification development for the syllAbuIld.ai repository.

The development shallowly embeds the JavaScript code of
`syllabuild-ai-fullstack/frontend/src/App.jsx` (the client-side Course Schema
Normalizer, option shuffle and lenient JSON parsing) and of the Express
backend (`server.js`: model-client wrapper, prompt builders, lenient JSON
extraction and the four AI endpoints).

Modelling conventions:
  * JavaScript values that arise from JSON are modelled by `JSValue`.
    Numbers are modelled by `ℚ` (JSON numbers are decimal literals; the
    embedding is exact on integers, which is all the verified claims touch,
    and ignores IEEE-754 rounding).
  * JavaScript arrays may carry non-index properties (the code assigns
    `out.finalTest.questions = …` where `out.finalTest` may be an array),
    so the `arr` constructor carries a separate property list.
  * `undefined` is modelled by `Option JSValue` at every use site
    (a missing field reads as `none`).
  * Both source files are ES modules, hence strict mode: assigning a
    property on a primitive (`5`, `"x"`, `true`, `null`) throws a
    `TypeError`.  Fallible steps therefore live in `Except Unit` / error
    types; `.error` marks a thrown exception.
  * `Math.random()` draws are modelled by an injected source
    `g : ℕ → ℕ`: the Fisher–Yates iteration with loop index `i` uses
    `g i % (i + 1)` as the drawn position, which ranges over exactly the
    values `Math.floor(Math.random() * (i + 1))` can take.  A whole
    normalisation run takes a family `gs : ℕ → ℕ → ℕ` (one independent
    source per question index), so every actual run of the unseeded
    JavaScript shuffle is represented by some choice of `gs`.
-/

inductive JSValue where
  | null
  | bool (b : Bool)
  | num (q : ℚ)
  | str (s : String)
  | arr (elems : List JSValue) (props : List (String × JSValue))
  | obj (fields : List (String × JSValue))

namespace JSValue

-- Decidable equality, written by hand because `deriving` does not handle
-- the nested occurrences of `JSValue` under `List`.
mutual
def decEqJS : (a b : JSValue) → Decidable (a = b)
  | .null, .null => isTrue rfl
  | .null, .bool _ => isFalse (fun h => JSValue.noConfusion h)
  | .null, .num _ => isFalse (fun h => JSValue.noConfusion h)
  | .null, .str _ => isFalse (fun h => JSValue.noConfusion h)
  | .null, .arr _ _ => isFalse (fun h => JSValue.noConfusion h)
  | .null, .obj _ => isFalse (fun h => JSValue.noConfusion h)
  | .bool _, .null => isFalse (fun h => JSValue.noConfusion h)
  | .bool a, .bool b =>
      if h : a = b then isTrue (by rw [h]) else
        isFalse (fun hh => h (by injection hh))
  | .bool _, .num _ => isFalse (fun h => JSValue.noConfusion h)
  | .bool _, .str _ => isFalse (fun h => JSValue.noConfusion h)
  | .bool _, .arr _ _ => isFalse (fun h => JSValue.noConfusion h)
  | .bool _, .obj _ => isFalse (fun h => JSValue.noConfusion h)
  | .num _, .null => isFalse (fun h => JSValue.noConfusion h)
  | .num _, .bool _ => isFalse (fun h => JSValue.noConfusion h)
  | .num a, .num b =>
      if h : a = b then isTrue (by rw [h]) else
        isFalse (fun hh => h (by injection hh))
  | .num _, .str _ => isFalse (fun h => JSValue.noConfusion h)
  | .num _, .arr _ _ => isFalse (fun h => JSValue.noConfusion h)
  | .num _, .obj _ => isFalse (fun h => JSValue.noConfusion h)
  | .str _, .null => isFalse (fun h => JSValue.noConfusion h)
  | .str _, .bool _ => isFalse (fun h => JSValue.noConfusion h)
  | .str _, .num _ => isFalse (fun h => JSValue.noConfusion h)
  | .str a, .str b =>
      if h : a = b then isTrue (by rw [h]) else
        isFalse (fun hh => h (by injection hh))
  | .str _, .arr _ _ => isFalse (fun h => JSValue.noConfusion h)
  | .str _, .obj _ => isFalse (fun h => JSValue.noConfusion h)
  | .arr _ _, .null => isFalse (fun h => JSValue.noConfusion h)
  | .arr _ _, .bool _ => isFalse (fun h => JSValue.noConfusion h)
  | .arr _ _, .num _ => isFalse (fun h => JSValue.noConfusion h)
  | .arr _ _, .str _ => isFalse (fun h => JSValue.noConfusion h)
  | .arr es ps, .arr es2 ps2 =>
      match decEqJSList es es2, decEqJSFields ps ps2 with
      | isTrue h1, isTrue h2 => isTrue (by rw [h1, h2])
      | isFalse h1, _ => isFalse (fun hh => h1 (by injection hh))
      | _, isFalse h2 => isFalse (fun hh => h2 (by injection hh))
  | .arr _ _, .obj _ => isFalse (fun h => JSValue.noConfusion h)
  | .obj _, .null => isFalse (fun h => JSValue.noConfusion h)
  | .obj _, .bool _ => isFalse (fun h => JSValue.noConfusion h)
  | .obj _, .num _ => isFalse (fun h => JSValue.noConfusion h)
  | .obj _, .str _ => isFalse (fun h => JSValue.noConfusion h)
  | .obj _, .arr _ _ => isFalse (fun h => JSValue.noConfusion h)
  | .obj fs, .obj fs2 =>
      match decEqJSFields fs fs2 with
      | isTrue h => isTrue (by rw [h])
      | isFalse h => isFalse (fun hh => h (by injection hh))
def decEqJSList : (a b : List JSValue) → Decidable (a = b)
  | [], [] => isTrue rfl
  | [], _ :: _ => isFalse (fun h => List.noConfusion h)
  | _ :: _, [] => isFalse (fun h => List.noConfusion h)
  | a :: as, b :: bs =>
      match decEqJS a b, decEqJSList as bs with
      | isTrue h1, isTrue h2 => isTrue (by rw [h1, h2])
      | isFalse h1, _ => isFalse (fun hh => h1 (by injection hh))
      | _, isFalse h2 => isFalse (fun hh => h2 (by injection hh))
def decEqJSFields : (a b : List (String × JSValue)) → Decidable (a = b)
  | [], [] => isTrue rfl
  | [], _ :: _ => isFalse (fun h => List.noConfusion h)
  | _ :: _, [] => isFalse (fun h => List.noConfusion h)
  | (k, a) :: as, (k2, b) :: bs =>
      match String.decEq k k2, decEqJS a b, decEqJSFields as bs with
      | isTrue hk, isTrue h1, isTrue h2 => isTrue (by rw [hk, h1, h2])
      | isFalse hk, _, _ =>
          isFalse (fun hh => by
            injection hh with h1 h2
            exact hk (congrArg Prod.fst h1))
      | _, isFalse h1, _ =>
          isFalse (fun hh => by
            injection hh with hp ht
            exact h1 (congrArg Prod.snd hp))
      | _, _, isFalse h2 =>
          isFalse (fun hh => by
            injection hh with hp ht
            exact h2 ht)
end

instance : DecidableEq JSValue := decEqJS

end JSValue

/-! ## Basic JavaScript value operations -/

namespace JS

open JSValue

/-- JavaScript truthiness of a (JSON-representable) value.  `NaN` cannot be
produced by `JSON.parse`, so `num q` is falsy exactly when `q = 0`. -/
def truthy : JSValue → Bool
  | .null => false
  | .bool b => b
  | .num q => q ≠ 0
  | .str s => s ≠ ""
  | .arr _ _ => true
  | .obj _ => true

/-- Truthiness of a possibly-`undefined` value (`undefined` is falsy). -/
def truthyO : Option JSValue → Bool
  | none => false
  | some v => truthy v

/-- `a || b` where `a` may be `undefined`.  Returns `a` when truthy, else `b`. -/
def jsOr (a : Option JSValue) (b : JSValue) : JSValue :=
  match a with
  | some v => if truthy v then v else b
  | none => b

/-- First-match association-list lookup (JavaScript objects cannot hold
duplicate keys; on values built by this embedding the key is unique). -/
def lookupF : List (String × JSValue) → String → Option JSValue
  | [], _ => none
  | (k, v) :: rest, key => if k = key then some v else lookupF rest key

/-- Association-list update: replaces the value in place when the key exists
(JavaScript keeps the original insertion position on overwrite), otherwise
appends the new key at the end. -/
def setF : List (String × JSValue) → String → JSValue → List (String × JSValue)
  | [], key, v => [(key, v)]
  | (k, w) :: rest, key, v =>
      if k = key then (k, v) :: rest else (k, w) :: setF rest key v

/-- Value of a list of decimal digit characters. -/
def digitsVal (ds : List Char) : ℕ :=
  ds.foldl (fun acc c => acc * 10 + (c.toNat - '0'.toNat)) 0

/-- Canonical array-index reading of a key: `some i` iff the key is the
canonical decimal representation of `i` (JavaScript array index
properties; the 2^32 - 1 bound is irrelevant to every verified input). -/
def toIndex? (k : String) : Option ℕ :=
  match k.data with
  | [] => none
  | ['0'] => some 0
  | c :: rest =>
      if ('1' ≤ c ∧ c ≤ '9') ∧ rest.all (fun d => '0' ≤ d ∧ d ≤ '9') then
        some (digitsVal (c :: rest))
      else none

/-- Property read `v[k]`, yielding `none` for `undefined`.  Reading a
property on a primitive yields `undefined`; reading on `null` throws in
JavaScript and is guarded separately at each use site that can reach it. -/
def getFieldOpt : JSValue → String → Option JSValue
  | .obj fs, k => lookupF fs k
  | .arr es ps, k =>
      match toIndex? k with
      | some i => es.get? i
      | none => lookupF ps k
  | _, _ => none

/-- Property assignment `v[k] = x` in strict mode: succeeds on objects and
arrays (named properties of an array live next to its elements), throws a
`TypeError` on primitives and `null`. -/
def setProp : JSValue → String → JSValue → Except Unit JSValue
  | .obj fs, k, x => .ok (.obj (setF fs k x))
  | .arr es ps, k, x => .ok (.arr es (setF ps k x))
  | _, _, _ => .error ()

/-- Own enumerable properties copied by object spread `{...v}`:
object fields, array elements (as index keys) followed by named array
properties, string characters (as index keys); primitives contribute
nothing. -/
def spreadFields : JSValue → List (String × JSValue)
  | .obj fs => fs
  | .arr es ps => (es.enum.map (fun p => (toString p.1, p.2))) ++ ps
  | .str s => s.data.enum.map (fun p => (toString p.1, .str (String.mk [p.2])))
  | _ => []

/-- Elements of an array value (used only where the value is known to be an
array). -/
def arrElems : JSValue → List JSValue
  | .arr es _ => es
  | _ => []

/-- `Array.prototype.findIndex`: the first index satisfying the predicate
(`none` plays the role of JavaScript's `-1`). -/
def jsFindIndex? : List α → (α → Bool) → Option ℕ
  | [], _ => none
  | x :: xs, p => if p x then some 0 else (jsFindIndex? xs p).map (· + 1)

end JS

/-! ## `shuffleArray` (App.jsx) — Fisher–Yates with an injected random source -/

namespace JS

/-- One swap `[a[i], a[j]] = [a[j], a[i]]`; out-of-range indices leave the
list unchanged (they cannot occur in the calls the shuffle makes). -/
def listSwap (l : List α) (i j : ℕ) : List α :=
  match l.get? i, l.get? j with
  | some vi, some vj => (l.set i vj).set j vi
  | _, _ => l

/-- The loop of `shuffleArray`: indices `i, i-1, …, 1`, drawing
`j = g i % (i + 1)` at each step (the value of
`Math.floor(Math.random() * (i + 1))`). -/
def fyAux (g : ℕ → ℕ) : ℕ → List α → List α
  | 0, a => a
  | i + 1, a => fyAux g i (listSwap a (i + 1) (g (i + 1) % (i + 2)))

/-- `shuffleArray` from App.jsx: copies the array and runs the
Fisher–Yates loop for `i = length - 1` down to `1`. -/
def shuffleArray (g : ℕ → ℕ) (arr : List α) : List α :=
  fyAux g (arr.length - 1) arr

theorem cons_set_perm (xs : List α) (k : ℕ) (x : α) (hk : k < xs.length) :
    List.Perm (xs.get ⟨k, hk⟩ :: xs.set k x) (x :: xs) := by
  induction xs generalizing k with
  | nil => cases hk
  | cons y ys ih =>
    cases k with
    | zero => simpa using List.Perm.swap x y ys
    | succ k =>
      have hk' : k < ys.length := Nat.lt_of_succ_lt_succ hk
      have h1 : List.Perm (ys.get ⟨k, hk'⟩ :: y :: ys.set k x)
          (y :: ys.get ⟨k, hk'⟩ :: ys.set k x) := List.Perm.swap _ _ _
      have h2 : List.Perm (y :: ys.get ⟨k, hk'⟩ :: ys.set k x) (y :: x :: ys) :=
        List.Perm.cons y (ih k hk')
      have h3 : List.Perm (y :: x :: ys) (x :: y :: ys) := List.Perm.swap _ _ _
      exact (h1.trans h2).trans h3

theorem listSwap_perm (l : List α) (i j : ℕ) : List.Perm (listSwap l i j) l := by
  unfold listSwap
  cases hvi : l.get? i with
  | none => simp [hvi]
  | some vi =>
    cases hvj : l.get? j with
    | none => simp [hvi, hvj]
    | some vj =>
      simp only [hvi, hvj]
      have hi : i < l.length := (List.get?_eq_some.mp hvi).1
      have hj : j < l.length := (List.get?_eq_some.mp hvj).1
      have hvi' : l.get ⟨i, hi⟩ = vi := (List.get?_eq_some.mp hvi).2
      have hvj' : l.get ⟨j, hj⟩ = vj := (List.get?_eq_some.mp hvj).2
      induction l generalizing i j with
      | nil => cases hi
      | cons x xs ih =>
        cases i with
        | zero =>
          cases j with
          | zero =>
            subst hvi'
            simp
          | succ j' =>
            have hj' : j' < xs.length := Nat.lt_of_succ_lt_succ hj
            have : vj = xs.get ⟨j', hj'⟩ := by
              simpa using hvj'.symm
            subst this
            subst hvi'
            simpa using cons_set_perm xs j' (List.get (x :: xs) ⟨0, hi⟩) hj'
        | succ i' =>
          have hi' : i' < xs.length := Nat.lt_of_succ_lt_succ hi
          cases j with
          | zero =>
            have : vi = xs.get ⟨i', hi'⟩ := by
              simpa using hvi'.symm
            subst this
            subst hvj'
            simpa using cons_set_perm xs i' (List.get (x :: xs) ⟨0, hj⟩) hi'
          | succ j' =>
            have hj' : j' < xs.length := Nat.lt_of_succ_lt_succ hj
            have hvi2 : xs.get? i' = some vi := by
              rw [List.get?_eq_getElem?] at hvi ⊢
              simpa using hvi
            have hvj2 : xs.get? j' = some vj := by
              rw [List.get?_eq_getElem?] at hvj ⊢
              simpa using hvj
            have := ih i' j' hvi2 hvj2 hi' hj'
              (by simpa using hvi') (by simpa using hvj')
            simpa using List.Perm.cons x this

theorem fyAux_perm (g : ℕ → ℕ) (n : ℕ) (a : List α) :
    List.Perm (fyAux g n a) a := by
  induction n generalizing a with
  | zero => exact List.Perm.refl a
  | succ i ih =>
    exact List.Perm.trans (ih _) (listSwap_perm a (i + 1) (g (i + 1) % (i + 2)))

theorem shuffleArray_perm (g : ℕ → ℕ) (arr : List α) :
    List.Perm (shuffleArray g arr) arr :=
  fyAux_perm g (arr.length - 1) arr

theorem shuffleArray_length (g : ℕ → ℕ) (arr : List α) :
    (shuffleArray g arr).length = arr.length :=
  (shuffleArray_perm g arr).length_eq

/-- A list is unchanged by setting an index to the element it already holds. -/
theorem set_get_self (l : List α) (n : ℕ) (hn : n < l.length) :
    l.set n (l.get ⟨n, hn⟩) = l := by
  induction l generalizing n with
  | nil => cases hn
  | cons x xs ih =>
    cases n with
    | zero => rfl
    | succ k => simpa using ih k (Nat.lt_of_succ_lt_succ hn)

/-- Swapping an index with itself is the identity. -/
theorem listSwap_self (l : List α) (i : ℕ) : listSwap l i i = l := by
  unfold listSwap
  cases hvi : l.get? i with
  | none => rfl
  | some vi =>
    simp only [hvi]
    have hi : i < l.length := (List.get?_eq_some.mp hvi).1
    have hvi' : l.get ⟨i, hi⟩ = vi := (List.get?_eq_some.mp hvi).2
    rw [List.set_set, ← hvi', set_get_self]

/-- With the identity random source (`g i = i`, hence `j = i` at every
step) the Fisher–Yates loop is the identity permutation. -/
theorem fyAux_id (n : ℕ) (a : List α) : fyAux (fun i => i) n a = a := by
  induction n with
  | zero => rfl
  | succ i ih =>
    show fyAux (fun i => i) i (listSwap a (i + 1) ((i + 1) % (i + 2))) = a
    rw [Nat.mod_eq_of_lt (Nat.lt_succ_self (i + 1)), listSwap_self, ih]

theorem shuffleArray_id (arr : List α) : shuffleArray (fun i => i) arr = arr :=
  fyAux_id (arr.length - 1) arr

end JS

/-! ## Course Schema Normalizer (App.jsx) -/

namespace Frontend

open JS JSValue

/-- The placeholder options used when a question does not come with at
least 4 options. -/
def placeholderOptions : JSValue :=
  .arr [.str "Option A", .str "Option B", .str "Option C", .str "Option D"] []

/-- `shuffleQuestionOptions` from App.jsx.

```js
const opts = (q.options || []).slice(0, 4).map((opt, idx) => ({
  text: opt, correct: idx === q.correctAnswer }));
const shuffled = shuffleArray(opts);
return { ...q, options: shuffled.map(x => x.text),
         correctAnswer: shuffled.findIndex(x => x.correct) };
```

The `{text, correct}` records are modelled as pairs `JSValue × Bool`.
When `q.options || []` is a truthy non-array, `.slice`/`.map` throws a
`TypeError` (that never happens on the normalizer's call sites, where the
options have already been forced to an array of four). -/
def shuffleQuestionOptions (g : ℕ → ℕ) (q : JSValue) : Except Unit JSValue :=
  match jsOr (getFieldOpt q "options") (.arr [] []) with
  | .arr es _ =>
      let opts : List (JSValue × Bool) :=
        (es.take 4).mapIdx (fun idx o =>
          (o, match getFieldOpt q "correctAnswer" with
              | some (.num c) => decide (c = (idx : ℚ))
              | _ => false))
      let shuffled := shuffleArray g opts
      let newCA : ℚ :=
        match jsFindIndex? shuffled (fun p => p.2) with
        | some i => (i : ℚ)
        | none => -1
      .ok (.obj (setF (setF (spreadFields q) "options"
            (.arr (shuffled.map (fun p => p.1)) [])) "correctAnswer" (.num newCA)))
  | _ => .error ()

/-- One lesson of `normalizeCourseJSON` (the inner `u.lessons.map`). -/
def normalizeLesson (ui li : ℕ) (l : JSValue) : JSValue :=
  .obj [("id", jsOr (getFieldOpt l "id")
          (.str ("u" ++ toString (ui + 1) ++ "l" ++ toString (li + 1)))),
        ("title", jsOr (getFieldOpt l "title") (.str ("Lesson " ++ toString (li + 1)))),
        ("content", match getFieldOpt l "content" with
          | some (.str s) => .str s
          | _ => .str ""),
        ("keyPoints", match getFieldOpt l "keyPoints" with
          | some (.arr es _) => .arr ((es.filter truthy).take 10) []
          | _ => .arr [] [])]

/-- One unit of `normalizeCourseJSON` (the `out.units.map` body). -/
def normalizeUnit (ui : ℕ) (u : JSValue) : JSValue :=
  .obj [("id", jsOr (getFieldOpt u "id") (.str ("u" ++ toString (ui + 1)))),
        ("title", jsOr (getFieldOpt u "title") (.str ("Unit " ++ toString (ui + 1)))),
        ("description", jsOr (getFieldOpt u "description") (.str "")),
        ("lessons", match getFieldOpt u "lessons" with
          | some (.arr es _) => .arr (es.mapIdx (normalizeLesson ui)) []
          | _ => .arr [] [])]

/-- One question of `normalizeCourseJSON` (the first `questions.map` body,
before the option shuffle): defaults for `id`/`question`/`explanation`,
options truncated to the first four or replaced by the placeholders, and
`correctAnswer` kept only when `Number.isInteger` holds and it lies in
`[0, 3]`. -/
def normalizeQuestion (i : ℕ) (q : JSValue) : JSValue :=
  .obj [("id", jsOr (getFieldOpt q "id") (.str ("q" ++ toString (i + 1)))),
        ("question", jsOr (getFieldOpt q "question")
          (.str ("Question " ++ toString (i + 1)))),
        ("options", match getFieldOpt q "options" with
          | some (.arr es _) =>
              if 4 ≤ es.length then .arr (es.take 4) [] else placeholderOptions
          | _ => placeholderOptions),
        ("correctAnswer", match getFieldOpt q "correctAnswer" with
          | some (.num c) =>
              if c.den = 1 ∧ 0 ≤ c ∧ c ≤ 3 then .num c else .num 0
          | _ => .num 0),
        ("explanation", jsOr (getFieldOpt q "explanation") (.str ""))]

/-- `normalizeCourseJSON` from App.jsx, with the random draws of the
per-question shuffles supplied by `gs` (question index ↦ source).

The function mutates `out = {...parsed}` step by step; the embedding
threads the updated field list.  The single step that can throw is the
strict-mode property assignment `out.finalTest.questions = …` when
`out.finalTest || {}` is a truthy primitive. -/
def normalizeCourseJSON (gs : ℕ → ℕ → ℕ) (parsed : JSValue) :
    Except Unit JSValue :=
  let f0 := spreadFields parsed
  let ct := jsOr (lookupF f0 "courseTitle") (.str "Untitled Course")
  let f1 := setF f0 "courseTitle" ct
  let cd := jsOr (lookupF f1 "courseDescription")
    (.str "AI-generated course from the uploaded syllabus.")
  let f2 := setF f1 "courseDescription" cd
  let u0 : JSValue :=
    match lookupF f2 "units" with
    | some (.arr es ps) => .arr es ps
    | _ => .arr [] []
  let f3 := setF f2 "units" u0
  let us : JSValue := .arr ((arrElems u0).mapIdx normalizeUnit) []
  let f4 := setF f3 "units" us
  let ftv := jsOr (lookupF f4 "finalTest") (.obj [])
  let f5 := setF f4 "finalTest" ftv
  let baseQs : List JSValue :=
    match getFieldOpt ftv "questions" with
    | some (.arr es _) => es.mapIdx normalizeQuestion
    | _ => []
  do
    let qs ← baseQs.enum.mapM (fun p => shuffleQuestionOptions (gs p.1) p.2)
    let ft2 ← setProp ftv "questions" (.arr qs [])
    pure (.obj (setF f5 "finalTest" ft2))

/-- The random-source family whose every draw produces the identity
permutation (`g i = i`, so the Fisher–Yates step swaps `a[i]` with itself). -/
def idGs : ℕ → ℕ → ℕ := fun _ i => i

/-- The `finalTest` value the normalizer works on: the input's `finalTest`
field defaulted to `{}` when absent or falsy. -/
def inputFinalTest (x : JSValue) : JSValue :=
  jsOr (lookupF (spreadFields x) "finalTest") (.obj [])

/-- The list of raw questions the normalizer maps over (empty when
`finalTest.questions` is not an array). -/
def inputQuestions (x : JSValue) : List JSValue :=
  match getFieldOpt (inputFinalTest x) "questions" with
  | some (.arr es _) => es
  | _ => []

/-- `y.finalTest.questions` read as a list (empty when missing or not an
array). -/
def outQuestions (y : JSValue) : List JSValue :=
  match getFieldOpt y "finalTest" with
  | some ft =>
      match getFieldOpt ft "questions" with
      | some (.arr es _) => es
      | _ => []
  | none => []

/-- The options of a question value, as a list. -/
def optionsOf (q : JSValue) : List JSValue :=
  match getFieldOpt q "options" with
  | some (.arr es _) => es
  | _ => []

/-- The `correctAnswer` field of a question value (`num (-1)` when absent,
which cannot occur on normalizer output). -/
def caOf (q : JSValue) : JSValue :=
  match getFieldOpt q "correctAnswer" with
  | some v => v
  | none => .num (-1)

end Frontend

/-! ## `JSON.parse` and the lenient JSON extractors -/

namespace JsonP

open JSValue JS

/-- JSON insignificant whitespace. -/
def isJsonWs (c : Char) : Bool :=
  c = ' ' || c = '\t' || c = '\n' || c = '\r'

def skipWs : List Char → List Char
  | [] => []
  | c :: rest => if isJsonWs c then skipWs rest else c :: rest

def hexVal? (c : Char) : Option ℕ :=
  if '0' ≤ c ∧ c ≤ '9' then some (c.toNat - '0'.toNat)
  else if 'a' ≤ c ∧ c ≤ 'f' then some (c.toNat - 'a'.toNat + 10)
  else if 'A' ≤ c ∧ c ≤ 'F' then some (c.toNat - 'A'.toNat + 10)
  else none

/-- Body of a JSON string literal (called after the opening quote);
returns the decoded string and the input after the closing quote.
`\uXXXX` escapes are decoded through `Char.ofNat` (UTF-16 surrogate halves,
which Lean strings cannot hold, degrade to `'\0'`; none of the verified
inputs contain them). -/
def pStrAux : List Char → List Char → Except Unit (String × List Char)
  | [], _ => .error ()
  | '"' :: rest, acc => .ok (String.mk acc.reverse, rest)
  | '\\' :: e :: rest, acc =>
      match e with
      | '"' => pStrAux rest ('"' :: acc)
      | '\\' => pStrAux rest ('\\' :: acc)
      | '/' => pStrAux rest ('/' :: acc)
      | 'b' => pStrAux rest (Char.ofNat 8 :: acc)
      | 'f' => pStrAux rest (Char.ofNat 12 :: acc)
      | 'n' => pStrAux rest ('\n' :: acc)
      | 'r' => pStrAux rest ('\r' :: acc)
      | 't' => pStrAux rest ('\t' :: acc)
      | 'u' =>
          match rest with
          | h1 :: h2 :: h3 :: h4 :: rest2 =>
              match hexVal? h1, hexVal? h2, hexVal? h3, hexVal? h4 with
              | some a, some b, some c, some d =>
                  pStrAux rest2 (Char.ofNat (((a * 16 + b) * 16 + c) * 16 + d) :: acc)
              | _, _, _, _ => .error ()
          | _ => .error ()
      | _ => .error ()
  | c :: rest, acc =>
      if c.toNat < 32 then .error () else pStrAux rest (c :: acc)

def isDigit (c : Char) : Bool := '0' ≤ c ∧ c ≤ '9'

def takeDigits : List Char → (List Char × List Char)
  | [] => ([], [])
  | c :: rest =>
      if isDigit c then
        let p := takeDigits rest
        (c :: p.1, p.2)
      else ([], c :: rest)

def digitsToNat (ds : List Char) : ℕ :=
  ds.foldl (fun acc c => acc * 10 + (c.toNat - '0'.toNat)) 0

/-- JSON number literal: `-? (0 | [1-9][0-9]*) (. [0-9]+)? ([eE][+-]?[0-9]+)?`,
evaluated exactly in `ℚ` (JavaScript would round to binary64; the claims
only involve small integers, where the two agree). -/
def pNumber (cs : List Char) : Except Unit (ℚ × List Char) :=
  let (neg, cs1) : Bool × List Char :=
    match cs with
    | '-' :: rest => (true, rest)
    | _ => (false, cs)
  let ipOpt : Option (List Char × List Char) :=
    match cs1 with
    | '0' :: rest => some ([ '0' ], rest)
    | c :: _ =>
        if isDigit c ∧ c ≠ '0' then
          let p := takeDigits cs1
          some (p.1, p.2)
        else none
    | [] => none
  match ipOpt with
  | none => .error ()
  | some (ip, cs2) =>
    let fracOpt : Option (List Char × List Char) :=
      match cs2 with
      | '.' :: rest =>
          let p := takeDigits rest
          if p.1 = [] then none else some (p.1, p.2)
      | _ => some ([], cs2)
    match fracOpt with
    | none => .error ()
    | some (fp, cs3) =>
      let expOpt : Option (ℤ × List Char) :=
        match cs3 with
        | 'e' :: rest | 'E' :: rest =>
            let (esign, rest1) : Bool × List Char :=
              match rest with
              | '+' :: r => (false, r)
              | '-' :: r => (true, r)
              | _ => (false, rest)
            let p := takeDigits rest1
            if p.1 = [] then none
            else some (if esign then -(digitsToNat p.1 : ℤ) else (digitsToNat p.1 : ℤ), p.2)
        | _ => some (0, cs3)
      match expOpt with
      | none => .error ()
      | some (ex, cs4) =>
        -- Integer literals avoid `ℚ` multiplication/division so that they
        -- evaluate by kernel reduction; the general branch denotes the same
        -- rational (`x + 0 / 10 ^ 0 = x` and `x * 10 ^ 0 = x`).
        let v : ℚ :=
          if fp = [] ∧ ex = 0 then
            (if neg then -(digitsToNat ip : ℚ) else (digitsToNat ip : ℚ))
          else
            let base : ℚ :=
              (digitsToNat ip : ℚ) + (digitsToNat fp : ℚ) / (10 : ℚ) ^ fp.length
            (if neg then -base else base) * (10 : ℚ) ^ ex
        .ok (v, cs4)

mutual
/-- One JSON value; `fuel` strictly decreases on every recursive call and
`input length + 2` is enough fuel for any input, since every recursive call
consumes at least one character. -/
def pVal : ℕ → List Char → Except Unit (JSValue × List Char)
  | 0, _ => .error ()
  | fuel + 1, cs =>
    match skipWs cs with
    | '{' :: rest =>
        (match skipWs rest with
         | '}' :: rest2 => .ok (.obj [], rest2)
         | _ => pMember fuel rest [])
    | '[' :: rest =>
        (match skipWs rest with
         | ']' :: rest2 => .ok (.arr [] [], rest2)
         | _ => pElem fuel rest [])
    | '"' :: rest =>
        (match pStrAux rest [] with
         | .ok (s, rest2) => .ok (.str s, rest2)
         | .error _ => .error ())
    | 't' :: 'r' :: 'u' :: 'e' :: rest => .ok (.bool true, rest)
    | 'f' :: 'a' :: 'l' :: 's' :: 'e' :: rest => .ok (.bool false, rest)
    | 'n' :: 'u' :: 'l' :: 'l' :: rest => .ok (.null, rest)
    | c :: rest =>
        if isDigit c ∨ c = '-' then
          match pNumber (c :: rest) with
          | .ok (q, rest2) => .ok (.num q, rest2)
          | .error _ => .error ()
        else .error ()
    | [] => .error ()
/-- Members of a JSON object after `{` or after a separating comma.
Duplicate keys overwrite in place (`setF`), as `JSON.parse` does. -/
def pMember : ℕ → List Char → List (String × JSValue) →
    Except Unit (JSValue × List Char)
  | 0, _, _ => .error ()
  | fuel + 1, cs, acc =>
    match skipWs cs with
    | '"' :: rest =>
        (match pStrAux rest [] with
         | .ok (k, cs1) =>
             (match skipWs cs1 with
              | ':' :: cs2 =>
                  (match pVal fuel cs2 with
                   | .ok (v, cs3) =>
                       let acc2 := setF acc k v
                       (match skipWs cs3 with
                        | ',' :: cs4 => pMember fuel cs4 acc2
                        | '}' :: cs4 => .ok (.obj acc2, cs4)
                        | _ => .error ())
                   | .error _ => .error ())
              | _ => .error ())
         | .error _ => .error ())
    | _ => .error ()
/-- Elements of a JSON array after `[` or after a separating comma. -/
def pElem : ℕ → List Char → List JSValue → Except Unit (JSValue × List Char)
  | 0, _, _ => .error ()
  | fuel + 1, cs, acc =>
    match pVal fuel cs with
    | .ok (v, cs1) =>
        (match skipWs cs1 with
         | ',' :: cs2 => pElem fuel cs2 (v :: acc)
         | ']' :: cs2 => .ok (.arr (v :: acc).reverse [], cs2)
         | _ => .error ())
    | .error _ => .error ()
end

/-- `JSON.parse`: one JSON value surrounded only by whitespace. -/
def jsonParse (s : String) : Except Unit JSValue :=
  match pVal (s.length + 2) s.data with
  | .ok (v, rest) => if skipWs rest = [] then .ok v else .error ()
  | .error _ => .error ()

end JsonP

/-! ## Lenient JSON extraction -/

instance {e a : Type} [DecidableEq e] [DecidableEq a] : DecidableEq (Except e a) :=
  fun x y =>
  match x, y with
  | .ok v, .ok w =>
      if h : v = w then isTrue (by rw [h])
      else isFalse (fun hh => h (by injection hh))
  | .error v, .error w =>
      if h : v = w then isTrue (by rw [h])
      else isFalse (fun hh => h (by injection hh))
  | .ok _, .error _ => isFalse (fun h => Except.noConfusion h)
  | .error _, .ok _ => isFalse (fun h => Except.noConfusion h)

namespace JsonP

/-- The fallback substring `raw.match(/\{[\s\S]*\}/)`: the span from the
first `{` to the last `}` of the whole string, provided the last `}` comes
after the first `{` (otherwise the regex does not match: no later `{` can
have a `}` after it either). -/
def extractBraceSpan (s : String) : Option String :=
  let cs := s.data
  match cs.findIdx? (fun c => c = '{') with
  | none => none
  | some i =>
      match cs.reverse.findIdx? (fun c => c = '}') with
      | none => none
      | some rj =>
          let j := cs.length - 1 - rj
          if i < j then some (String.mk ((cs.drop i).take (j - i + 1))) else none

/-- How a lenient-extraction call fails.  `noJson` is the explicitly thrown
error (backend message `"Model output was not valid JSON."`, frontend
message `"AI response did not contain valid JSON."`); `badJson` is the
exception rethrown by the second `JSON.parse`; `emptyInput` is the
frontend's `"Empty AI response"` guard. -/
inductive LenientErr where
  | emptyInput
  | noJson
  | badJson
deriving DecidableEq

/-- `safeParseJson` from the backend: strict parse, then the
first-`{`-to-last-`}` span, then the explicit error.  (For a string
argument, `String(raw || "")` is `raw` itself.) -/
def safeParseJson (raw : String) : Except LenientErr JSValue :=
  match jsonParse raw with
  | .ok v => .ok v
  | .error _ =>
      match extractBraceSpan raw with
      | none => .error .noJson
      | some sub =>
          match jsonParse sub with
          | .ok v => .ok v
          | .error _ => .error .badJson

/-- `parseJSONLoosely` from App.jsx: same algorithm with an extra guard
rejecting an empty (falsy) raw string. -/
def parseJSONLoosely (raw : String) : Except LenientErr JSValue :=
  if raw = "" then .error .emptyInput
  else
    match jsonParse raw with
    | .ok v => .ok v
    | .error _ =>
        match extractBraceSpan raw with
        | none => .error .noJson
        | some sub =>
            match jsonParse sub with
            | .ok v => .ok v
            | .error _ => .error .badJson

end JsonP

/-! ## Backend model client and endpoints (server.js) -/

namespace Backend

open JS JSValue JsonP

/-- Optional chaining `o?.k`: `undefined` on `null`/`undefined`, otherwise a
property read (which on primitives yields `undefined`). -/
def optChain (o : Option JSValue) (k : String) : Option JSValue :=
  match o with
  | none => none
  | some .null => none
  | some v => getFieldOpt v k

/-- Nullish coalescing `o ?? d`. -/
def coalesce (o : Option JSValue) (d : JSValue) : JSValue :=
  match o with
  | none => d
  | some .null => d
  | some v => v

/-- `settings?.k ?? d` — the pattern every prompt builder uses. -/
def settingOr (settings : Option JSValue) (k : String) (d : JSValue) : JSValue :=
  coalesce (optChain settings k) d

def orNull (o : Option JSValue) : JSValue := o.getD .null

/-- Decimal rendering of a `ℚ`.  Exact for integers (the only numbers the
claims inspect); non-integers are rendered `num/den` where JavaScript would
print a decimal expansion — no verified statement depends on that text. -/
def ratDisplay (q : ℚ) : String :=
  if q.den = 1 then toString q.num else toString q.num ++ "/" ++ toString q.den

mutual
/-- JavaScript string coercion as used by template-literal interpolation. -/
def jsDisplay : JSValue → String
  | .null => "null"
  | .bool b => cond b "true" "false"
  | .num q => ratDisplay q
  | .str s => s
  | .arr es _ => jsDisplayList es
  | .obj _ => "[object Object]"
/-- `Array.prototype.join(",")` (`null` elements render empty). -/
def jsDisplayList : List JSValue → String
  | [] => ""
  | .null :: rest => if rest.isEmpty then "" else "," ++ jsDisplayList rest
  | v :: rest =>
      jsDisplay v ++ (if rest.isEmpty then "" else "," ++ jsDisplayList rest)
end

def escJsonChar (c : Char) : String :=
  if c = '"' then "\\\""
  else if c = '\\' then "\\\\"
  else if c = '\n' then "\\n"
  else if c = '\r' then "\\r"
  else if c = '\t' then "\\t"
  else if c.toNat = 8 then "\\b"
  else if c.toNat = 12 then "\\f"
  else if c.toNat < 32 then
    "\\u00" ++ String.mk [(Nat.digitChar (c.toNat / 16)), (Nat.digitChar (c.toNat % 16))]
  else String.mk [c]

def quoteJson (s : String) : String :=
  "\"" ++ String.join (s.data.map escJsonChar) ++ "\""

def spaces (n : ℕ) : String := String.mk (List.replicate n ' ')

mutual
/-- `JSON.stringify(v, null, 2)` at a given current indentation (array
properties are not serialized, as in JavaScript). -/
def stringifyP : ℕ → JSValue → String
  | _, .null => "null"
  | _, .bool b => cond b "true" "false"
  | _, .num q => ratDisplay q
  | _, .str s => quoteJson s
  | ind, .arr es _ =>
      if es.isEmpty then "[]"
      else "[\n" ++ stringifyPList (ind + 2) es ++ "\n" ++ spaces ind ++ "]"
  | ind, .obj fs =>
      if fs.isEmpty then "\x7b\x7d"
      else "\x7b\n" ++ stringifyPFields (ind + 2) fs ++ "\n" ++ spaces ind ++ "\x7d"
def stringifyPList : ℕ → List JSValue → String
  | _, [] => ""
  | ind, v :: rest =>
      spaces ind ++ stringifyP ind v ++
        (if rest.isEmpty then "" else ",\n" ++ stringifyPList ind rest)
def stringifyPFields : ℕ → List (String × JSValue) → String
  | _, [] => ""
  | ind, (k, v) :: rest =>
      spaces ind ++ quoteJson k ++ ": " ++ stringifyP ind v ++
        (if rest.isEmpty then "" else ",\n" ++ stringifyPFields ind rest)
end

/-- `JSON.stringify(v, null, 2)`. -/
def jsonStringifyPretty (v : JSValue) : String := stringifyP 0 v

mutual
/-- Compact `JSON.stringify(v)`. -/
def stringifyC : JSValue → String
  | .null => "null"
  | .bool b => cond b "true" "false"
  | .num q => ratDisplay q
  | .str s => quoteJson s
  | .arr es _ => "[" ++ stringifyCList es ++ "]"
  | .obj fs => "\x7b" ++ stringifyCFields fs ++ "\x7d"
def stringifyCList : List JSValue → String
  | [] => ""
  | v :: rest =>
      stringifyC v ++ (if rest.isEmpty then "" else "," ++ stringifyCList rest)
def stringifyCFields : List (String × JSValue) → String
  | [] => ""
  | (k, v) :: rest =>
      quoteJson k ++ ":" ++ stringifyC v ++
        (if rest.isEmpty then "" else "," ++ stringifyCFields rest)
end

def jsonStringifyCompact (v : JSValue) : String := stringifyC v

end Backend


namespace Backend

open JS JSValue JsonP

/-- `buildCourseOnlyPrompt` from server.js (pass 1: course only, no quiz). -/
def buildCourseOnlyPrompt (syllabusText : String) (settings : Option JSValue) :
    String :=
  let minWords := settingOr settings "minimumLessonWords" (.num 300)
  "You are an expert curriculum designer. Create a comprehensive, detailed course from the syllabus below.\n"
  ++ "\n"
  ++ "Return ONLY a valid JSON object (no markdown fences) with this EXACT structure (NO finalTest in this step):\n"
  ++ "\x7b\n"
  ++ "  \"courseTitle\": \"string\",\n"
  ++ "  \"courseDescription\": \"string (2-3 sentences)\",\n"
  ++ "  \"units\": [\n"
  ++ "    \x7b\n"
  ++ "      \"id\": \"u1\",\n"
  ++ "      \"title\": \"Unit 1: Title\",\n"
  ++ "      \"description\": \"string\",\n"
  ++ "      \"lessons\": [\n"
  ++ "        \x7b\n"
  ++ "          \"id\": \"u1l1\",\n"
  ++ "          \"title\": \"string\",\n"
  ++ "          \"content\": \"Thorough lesson content — minimum "
  ++ (jsDisplay minWords)
  ++ " words. Include explanations, examples, and elaboration.\",\n"
  ++ "          \"keyPoints\": [\"string\",\"string\",\"string\",\"string\"]\n"
  ++ "        \x7d\n"
  ++ "      ]\n"
  ++ "    \x7d\n"
  ++ "  ]\n"
  ++ "\x7d\n"
  ++ "\n"
  ++ "Rules:\n"
  ++ "- Cover ALL major topics from the syllabus. Do NOT skip sections.\n"
  ++ "- Create as many units and lessons as needed for full coverage, but keep content tight and high-signal.\n"
  ++ "- Each lesson content must be "
  ++ (jsDisplay minWords)
  ++ "+ words with examples.\n"
  ++ "- Return ONLY the JSON, nothing else.\n"
  ++ "\n"
  ++ "SYLLABUS:\n"
  ++ syllabusText

/-- `buildQuizOnlyPrompt` from server.js (pass 2: final test only). -/
def buildQuizOnlyPrompt (courseOutline : JSValue) (settings : Option JSValue) :
    String :=
  let quizCount := settingOr settings "quizCountTarget" (.num 20)
  "You are an expert examiner. Create a final test for the course outline below.\n"
  ++ "\n"
  ++ "Return ONLY a valid JSON object (no markdown fences) with this EXACT structure:\n"
  ++ "\x7b\n"
  ++ "  \"finalTest\": \x7b\n"
  ++ "    \"questions\": [\n"
  ++ "      \x7b\n"
  ++ "        \"id\": \"q1\",\n"
  ++ "        \"question\": \"string\",\n"
  ++ "        \"options\": [\"Option A text\",\"Option B text\",\"Option C text\",\"Option D text\"],\n"
  ++ "        \"correctAnswer\": 0,\n"
  ++ "        \"explanation\": \"string\"\n"
  ++ "      \x7d\n"
  ++ "    ]\n"
  ++ "  \x7d\n"
  ++ "\x7d\n"
  ++ "\n"
  ++ "Rules:\n"
  ++ "- Create exactly "
  ++ (jsDisplay quizCount)
  ++ " MCQs covering ALL units and lessons.\n"
  ++ "- Questions must test understanding and application, not just recall.\n"
  ++ "- correctAnswer is 0-indexed (0=A,1=B,2=C,3=D)\n"
  ++ "- IMPORTANT: Distribute correct answers across A/B/C/D (avoid bias).\n"
  ++ "- Return ONLY JSON, nothing else.\n"
  ++ "\n"
  ++ "COURSE OUTLINE:\n"
  ++ (jsonStringifyPretty courseOutline)

/-- The inline analysis prompt of the `analyze-test` endpoint. -/
def analyzePrompt (courseTitle score : Option JSValue) (wrong : JSValue) :
    String :=
  "A student finished \""
  ++ (jsDisplay (jsOr courseTitle (.str "a course")))
  ++ "\" scoring "
  ++ (jsDisplay (coalesce (optChain score "pct") (.str "?")))
  ++ "% ("
  ++ (jsDisplay (coalesce (optChain score "correct") (.str "?")))
  ++ "/"
  ++ (jsDisplay (coalesce (optChain score "total") (.str "?")))
  ++ ").\n"
  ++ "Incorrect answers (JSON):\n"
  ++ (jsonStringifyPretty wrong)
  ++ "\n"
  ++ "\n"
  ++ "Provide:\n"
  ++ "1) Main weak areas/topics (bullet list)\n"
  ++ "2) Specific study recommendations for each weak area (bullet list)\n"
  ++ "3) A short encouraging closing message\n"
  ++ "\n"
  ++ "Be concise and actionable (under 250 words)."

/-- First `n` characters of a string (`String.prototype.slice(0, n)`;
JavaScript counts UTF-16 units where this counts characters — the verified
inputs are ASCII, where the two agree). -/
def strSlice (s : String) (n : ℕ) : String := String.mk (s.data.take n)

/-- `String.prototype.trim` (over the common whitespace characters). -/
def jsTrim (s : String) : String :=
  let ws : Char → Bool := fun c =>
    c = ' ' || c = '\t' || c = '\n' || c = '\r' || c.toNat = 11 || c.toNat = 12
  String.mk (((s.data.dropWhile ws).reverse.dropWhile ws).reverse)

/-- `.slice(0, 24000)` as applied to `sourceText || ""`: defined on strings
and arrays, a `TypeError` on other (truthy) values. -/
def slice24k : JSValue → Except Unit JSValue
  | .str s => .ok (.str (strSlice s 24000))
  | .arr es _ => .ok (.arr (es.take 24000) [])
  | _ => .error ()

/-- `buildFocusedPrompt` from server.js.  The only fallible step is
`(sourceText || "").slice(0, 24000)` when `sourceText` is a truthy value
with no `.slice` method. -/
def buildFocusedPrompt (originalCourse wrongAnswers : JSValue)
    (priorAnalysis sourceText settings : Option JSValue) :
    Except Unit String :=
  let minWords := settingOr settings "minimumLessonWords" (.num 300)
  let quizCount := settingOr settings "quizCountTarget" (.num 18)
  match slice24k (jsOr sourceText (.str "")) with
  | .error _ => .error ()
  | .ok sl =>
      let slicedSource := jsDisplay sl
      .ok ("You are an expert tutor and curriculum designer.\n"
  ++ "\n"
  ++ "Goal: Create a NEW course JSON focused primarily on the student's weak areas, while still including only the essential prerequisites needed to understand them.\n"
  ++ "\n"
  ++ "Return ONLY a valid JSON object:\n"
  ++ "\x7b\n"
  ++ "  \"courseTitle\": \"string\",\n"
  ++ "  \"courseDescription\": \"string (2-3 sentences)\",\n"
  ++ "  \"units\": [\n"
  ++ "    \x7b\n"
  ++ "      \"id\": \"u1\",\n"
  ++ "      \"title\": \"Unit 1: Title\",\n"
  ++ "      \"description\": \"string\",\n"
  ++ "      \"lessons\": [\n"
  ++ "        \x7b\n"
  ++ "          \"id\": \"u1l1\",\n"
  ++ "          \"title\": \"string\",\n"
  ++ "          \"content\": \"Minimum "
  ++ (jsDisplay minWords)
  ++ " words. Clear explanations + examples + practice guidance.\",\n"
  ++ "          \"keyPoints\": [\"string\",\"string\",\"string\",\"string\"]\n"
  ++ "        \x7d\n"
  ++ "      ]\n"
  ++ "    \x7d\n"
  ++ "  ],\n"
  ++ "  \"finalTest\": \x7b\n"
  ++ "    \"questions\": [\n"
  ++ "      \x7b\n"
  ++ "        \"id\": \"q1\",\n"
  ++ "        \"question\": \"string\",\n"
  ++ "        \"options\": [\"Option A\",\"Option B\",\"Option C\",\"Option D\"],\n"
  ++ "        \"correctAnswer\": 0,\n"
  ++ "        \"explanation\": \"string\"\n"
  ++ "      \x7d\n"
  ++ "    ]\n"
  ++ "  \x7d\n"
  ++ "\x7d\n"
  ++ "\n"
  ++ "Inputs:\n"
  ++ "- Original course outline:\n"
  ++ (jsonStringifyPretty originalCourse)
  ++ "\n"
  ++ "\n"
  ++ "- Student wrong answers:\n"
  ++ (jsonStringifyPretty wrongAnswers)
  ++ "\n"
  ++ "\n"
  ++ "- Prior performance analysis:\n"
  ++ (jsDisplay (jsOr priorAnalysis (.str "(none)")))
  ++ "\n"
  ++ "\n"
  ++ "Rules:\n"
  ++ "- Focus heavily on weak areas revealed by wrong answers.\n"
  ++ "- Include prerequisite refreshers only when needed.\n"
  ++ "- Create as many units as needed for remediation (typical 5–10).\n"
  ++ "- Each lesson: "
  ++ (jsDisplay minWords)
  ++ "+ words, worked examples, and common pitfalls.\n"
  ++ "- Create "
  ++ (jsDisplay quizCount)
  ++ " MCQs targeted to weak areas and application.\n"
  ++ "- Distribute correct answers across A/B/C/D.\n"
  ++ "- Return ONLY JSON.\n"
  ++ "\n"
  ++ "Reference syllabus (optional):\n"
  ++ slicedSource)

end Backend

namespace Backend

open JS JSValue JsonP

/-- The values `for (const item of v)` iterates over: array elements, or the
characters of a string; other values are not iterable (`TypeError`).
(The call site passes `data?.output || []`, so `null` cannot reach it.) -/
def iterElems : JSValue → Except Unit (List JSValue)
  | .arr es _ => .ok es
  | .str s => .ok (s.data.map (fun c => .str (String.mk [c])))
  | _ => .error ()

/-- Text blocks contributed by one item of `data.output` in `extractText`. -/
def itemParts (item : JSValue) : List String :=
  if optChain (some item) "type" = some (.str "message") then
    match getFieldOpt item "content" with
    | some (.arr cs _) =>
        cs.foldl (fun acc c =>
          acc ++
            (if optChain (some c) "type" = some (.str "output_text") then
              match getFieldOpt c "text" with
              | some (.str t) => [t]
              | _ => []
            else [])) []
    | _ =>
        -- `item.type === "message"` but `item.content` is not an array:
        -- the `else if` then tests `item?.type === "output_text"`, false here.
        []
  else if optChain (some item) "type" = some (.str "output_text") then
    match getFieldOpt item "text" with
    | some (.str t) => [t]
    | _ => []
  else []

/-- `extractText` from server.js: prefer a non-blank `output_text`
convenience field, otherwise concatenate every text block of `data.output`
in order. -/
def extractText (data : JSValue) : Except Unit String :=
  let viaOutput : Except Unit String :=
    match iterElems (jsOr (optChain (some data) "output") (.arr [] [])) with
    | .ok items => .ok (String.join (items.foldl (fun acc item => acc ++ itemParts item) []))
    | .error _ => .error ()
  match optChain (some data) "output_text" with
  | some (.str s) => if jsTrim s ≠ "" then .ok s else viaOutput
  | _ => viaOutput

/-- The upstream response for one `fetch`: HTTP success flag, status code,
and the JSON body (`r.json().catch(() => ({}))`). -/
structure NetResp where
  ok : Bool
  status : ℕ
  body : JSValue

/-- The request body `openaiResponses` builds. -/
structure OAIRequest where
  model : JSValue
  input : JSValue
  maxOutputTokens : ℕ
  jsonObject : Bool

/-- The network oracle: response to the `n`-th outbound call of a handler,
possibly depending on the request. -/
def Net : Type := ℕ → OAIRequest → NetResp

/-- Structured view of the errors a handler can throw (each surfaces as an
HTTP 500 whose message is shown in parentheses in the constructor docs). -/
inductive BackendErr where
  /-- "Missing OPENAI_API_KEY. Set it in backend/.env (or hosting env vars)." -/
  | config
  /-- non-success upstream status; carries `d?.error?.message || d?.message
  || ‹OpenAI error (status)›`. -/
  | upstream (msg : JSValue)
  /-- "Model output was not valid JSON." (no brace span to recover). -/
  | noJson
  /-- the rethrown failure of the second `JSON.parse` in `safeParseJson`. -/
  | badJson
  /-- a strict-mode `TypeError` (property access on `null`, `.map`/`.slice`
  on a non-array, or property assignment on a primitive). -/
  | typeError
deriving DecidableEq

def liftLenient : LenientErr → BackendErr
  | .noJson => .noJson
  | .badJson => .badJson
  | .emptyInput => .noJson   -- unreachable for `safeParseJson`

/-- `openaiResponses` from server.js with the credential and transport made
explicit.  With no API key it throws the configuration error before
`fetch`; the second component counts outbound network calls (0 or 1). -/
def openaiResponses (key : String) (net : Net) (callIdx : ℕ) (req : OAIRequest) :
    Except BackendErr JSValue × ℕ :=
  if key = "" then (.error .config, 0)
  else
    let r := net callIdx req
    if r.ok then (.ok r.body, 1)
    else
      let msg := jsOr (optChain (optChain (some r.body) "error") "message")
        (jsOr (optChain (some r.body) "message")
          (.str ("OpenAI error (" ++ toString r.status ++ ")")))
      (.error (.upstream msg), 1)

/-- HTTP responses a handler can produce. -/
inductive Resp where
  | ok (body : JSValue)
  | badRequest (msg : String)
  | serverError (e : BackendErr)
deriving DecidableEq

/-- An object-literal field whose value may be `undefined`: such a property
is omitted by `JSON.stringify`, which is the only way the outline objects
are observed (they are embedded into the quiz prompt). -/
def mkField (k : String) (o : Option JSValue) : List (String × JSValue) :=
  match o with
  | some v => [(k, v)]
  | none => []

def outlineLesson (l : JSValue) : Except Unit JSValue :=
  match l with
  | .null => .error ()       -- `l.id` on null throws
  | _ => .ok (.obj (mkField "id" (getFieldOpt l "id") ++
            mkField "title" (getFieldOpt l "title")))

def outlineUnit (u : JSValue) : Except Unit JSValue :=
  match u with
  | .null => .error ()       -- `u.id` on null throws
  | _ =>
    match jsOr (getFieldOpt u "lessons") (.arr [] []) with
    | .arr ls _ => do
        let ls2 ← ls.mapM outlineLesson
        .ok (.obj (mkField "id" (getFieldOpt u "id") ++
              mkField "title" (getFieldOpt u "title") ++
              [("lessons", .arr ls2 [])]))
    | _ => .error ()         -- `.map` on a truthy non-array

/-- `outlineForQuiz` built by the generate-course handler: titles and ids
only, lesson bodies stripped. -/
def outlineForQuiz (courseObj : JSValue) : Except Unit JSValue :=
  match courseObj with
  | .null => .error ()       -- `courseObj.courseTitle` on null throws
  | _ =>
    match jsOr (getFieldOpt courseObj "units") (.arr [] []) with
    | .arr us _ => do
        let us2 ← us.mapM outlineUnit
        .ok (.obj (mkField "courseTitle" (getFieldOpt courseObj "courseTitle") ++
              [("units", .arr us2 [])]))
    | _ => .error ()

def removeF : List (String × JSValue) → String → List (String × JSValue)
  | [], _ => []
  | (k, v) :: rest, key => if k = key then rest else (k, v) :: removeF rest key

/-- The merge step `courseObj.finalTest = quizObj.finalTest`.  Reading the
right-hand side throws on `null`; assigning throws on a primitive
`courseObj`; an `undefined` right-hand side leaves a property that the
final `JSON.stringify` omits, modelled by removing the key. -/
def mergeFinalTest (courseObj quizObj : JSValue) : Except Unit JSValue :=
  match quizObj with
  | .null => .error ()
  | _ =>
    match getFieldOpt quizObj "finalTest" with
    | some ft => setProp courseObj "finalTest" ft
    | none =>
        match courseObj with
        | .obj fs => .ok (.obj (removeF fs "finalTest"))
        | .arr es ps => .ok (.arr es (removeF ps "finalTest"))
        | _ => .error ()

end Backend

namespace Backend

open JS JSValue JsonP

/-- `POST /api/ai/ocr-image`.  Returns the HTTP response and the number of
outbound model calls made. -/
def ocrImage (key : String) (net : Net) (cfgVisionModel : String)
    (body : JSValue) : Resp × ℕ :=
  let imageDataUrl := getFieldOpt body "imageDataUrl"
  if truthyO imageDataUrl = false then (.badRequest "imageDataUrl is required", 0)
  else
    let usedModel := jsOr (getFieldOpt body "model") (.str cfgVisionModel)
    let usedInstruction := jsOr (getFieldOpt body "instruction")
      (.str "OCR this image and extract ALL visible text verbatim. Return only raw text.")
    let input : JSValue := .arr
      [.obj [("role", .str "user"),
             ("content", .arr
               [.obj [("type", .str "input_text"), ("text", usedInstruction)],
                .obj [("type", .str "input_image"),
                      ("image_url", orNull imageDataUrl)]] [])]] []
    match openaiResponses key net 0 ⟨usedModel, input, 4000, false⟩ with
    | (.error e, n) => (.serverError e, n)
    | (.ok d, n) =>
        match extractText d with
        | .ok t => (.ok (.obj [("text", .str t)]), n)
        | .error _ => (.serverError .typeError, n)

/-- `POST /api/ai/generate-course`: the two-pass orchestrator.  `net` plays
the remote model; the second component counts outbound calls. -/
def generateCourse (key : String) (net : Net) (cfgModel : String)
    (body : JSValue) : Resp × ℕ :=
  let st := getFieldOpt body "syllabusText"
  let stIsString : Bool := match st with | some (.str _) => true | _ => false
  if truthyO st = false ∨ stIsString = false then
    (.badRequest "syllabusText (string) is required", 0)
  else
    let s := match st with | some (.str s0) => s0 | _ => ""
    let settings := getFieldOpt body "settings"
    let usedModel := jsOr (getFieldOpt body "model") (.str cfgModel)
    let trimmed := strSlice s 24000
    let coursePrompt := buildCourseOnlyPrompt trimmed settings
    let req1 : OAIRequest :=
      ⟨usedModel, .arr [.obj [("role", .str "user"), ("content", .str coursePrompt)]] [],
        12000, true⟩
    match openaiResponses key net 0 req1 with
    | (.error e, n1) => (.serverError e, n1)
    | (.ok d1, n1) =>
      match extractText d1 with
      | .error _ => (.serverError .typeError, n1)
      | .ok t1 =>
        match safeParseJson t1 with
        | .error pe => (.serverError (liftLenient pe), n1)
        | .ok courseObj =>
          match outlineForQuiz courseObj with
          | .error _ => (.serverError .typeError, n1)
          | .ok outline =>
            let quizPrompt := buildQuizOnlyPrompt outline settings
            let req2 : OAIRequest :=
              ⟨usedModel, .arr [.obj [("role", .str "user"), ("content", .str quizPrompt)]] [],
                5000, true⟩
            match openaiResponses key net 1 req2 with
            | (.error e, n2) => (.serverError e, n1 + n2)
            | (.ok d2, n2) =>
              match extractText d2 with
              | .error _ => (.serverError .typeError, n1 + n2)
              | .ok t2 =>
                match safeParseJson t2 with
                | .error pe => (.serverError (liftLenient pe), n1 + n2)
                | .ok quizObj =>
                  match mergeFinalTest courseObj quizObj with
                  | .error _ => (.serverError .typeError, n1 + n2)
                  | .ok merged =>
                      (.ok (.obj [("jsonText", .str (jsonStringifyCompact merged))]),
                        n1 + n2)

/-- `POST /api/ai/analyze-test`. -/
def analyzeTest (key : String) (net : Net) (cfgModel : String)
    (body : JSValue) : Resp × ℕ :=
  let wrong := getFieldOpt body "wrong"
  let usedModel := jsOr (getFieldOpt body "model") (.str cfgModel)
  match wrong with
  | some (.arr ws ps) =>
      let prompt := analyzePrompt (getFieldOpt body "courseTitle")
        (getFieldOpt body "score") (.arr ws ps)
      let req : OAIRequest :=
        ⟨usedModel, .arr [.obj [("role", .str "user"), ("content", .str prompt)]] [],
          900, false⟩
      (match openaiResponses key net 0 req with
       | (.error e, n) => (.serverError e, n)
       | (.ok d, n) =>
           match extractText d with
           | .ok t => (.ok (.obj [("text", .str t)]), n)
           | .error _ => (.serverError .typeError, n))
  | _ => (.badRequest "wrong must be an array", 0)

/-- `POST /api/ai/focused-course`: single-pass remediation flow. -/
def focusedCourse (key : String) (net : Net) (cfgModel : String)
    (body : JSValue) : Resp × ℕ :=
  let originalCourse := getFieldOpt body "originalCourse"
  let wrongAnswers := getFieldOpt body "wrongAnswers"
  let usedModel := jsOr (getFieldOpt body "model") (.str cfgModel)
  if truthyO originalCourse = false then (.badRequest "originalCourse is required", 0)
  else
    match wrongAnswers with
    | some (.arr ws ps) =>
        if ws.isEmpty then (.badRequest "wrongAnswers must be a non-empty array", 0)
        else
          (match buildFocusedPrompt (orNull originalCourse) (.arr ws ps)
              (getFieldOpt body "priorAnalysis") (getFieldOpt body "sourceText")
              (getFieldOpt body "settings") with
           | .error _ => (.serverError .typeError, 0)
           | .ok prompt =>
               let req : OAIRequest :=
                 ⟨usedModel, .arr [.obj [("role", .str "user"), ("content", .str prompt)]] [],
                   15000, true⟩
               match openaiResponses key net 0 req with
               | (.error e, n) => (.serverError e, n)
               | (.ok d, n) =>
                   match extractText d with
                   | .ok t => (.ok (.obj [("jsonText", .str t)]), n)
                   | .error _ => (.serverError .typeError, n))
    | _ => (.badRequest "wrongAnswers must be a non-empty array", 0)

end Backend

/-! ## General lemmas about the embedded operations -/

namespace JS

theorem lookupF_setF_self (f : List (String × JSValue)) (k : String) (v : JSValue) :
    lookupF (setF f k v) k = some v := by
  induction f with
  | nil => simp [setF, lookupF]
  | cons p rest ih =>
    by_cases h : p.1 = k
    · simp [setF, lookupF, h]
    · simp [setF, lookupF, h, ih]

theorem lookupF_setF_ne (f : List (String × JSValue)) (k k' : String) (v : JSValue)
    (h : k' ≠ k) : lookupF (setF f k v) k' = lookupF f k' := by
  induction f with
  | nil => simp [setF, lookupF, Ne.symm h]
  | cons p rest ih =>
    by_cases hp : p.1 = k
    · have hp' : p.1 ≠ k' := fun hh => h (hh.symm.trans hp)
      simp [setF, lookupF, hp, hp', Ne.symm h]
    · by_cases hp' : p.1 = k'
      · simp [setF, lookupF, hp, hp', h]
      · simp [setF, lookupF, hp, hp', ih]

theorem setF_setF (f : List (String × JSValue)) (k : String) (v w : JSValue) :
    setF (setF f k v) k w = setF f k w := by
  induction f with
  | nil => simp [setF]
  | cons p rest ih =>
    by_cases h : p.1 = k
    · simp [setF, h]
    · simp [setF, h, ih]

theorem setF_of_lookup (f : List (String × JSValue)) (k : String) (v : JSValue)
    (h : lookupF f k = some v) : setF f k v = f := by
  induction f with
  | nil => simp [lookupF] at h
  | cons p rest ih =>
    obtain ⟨k0, v0⟩ := p
    by_cases hp : k0 = k
    · simp only [lookupF] at h
      rw [if_pos hp] at h
      have hv : v0 = v := Option.some_inj.mp h
      simp [setF, hp, hv]
    · simp only [lookupF] at h
      rw [if_neg hp] at h
      simp [setF, hp, ih h]

theorem truthy_jsOr (o : Option JSValue) (d : JSValue) (hd : truthy d = true) :
    truthy (jsOr o d) = true := by
  cases o with
  | none => simpa [jsOr] using hd
  | some v =>
    by_cases hv : truthy v
    · simp [jsOr, hv]
    · simpa [jsOr, hv] using hd

theorem jsOr_of_truthy (v : JSValue) (d : JSValue) (hv : truthy v = true) :
    jsOr (some v) d = v := by simp [jsOr, hv]

/-- `(o || d) || d = o || d`: re-defaulting with the same default changes
nothing, truthy or not. -/
theorem jsOr_absorb (o : Option JSValue) (d : JSValue) :
    jsOr (some (jsOr o d)) d = jsOr o d := by
  cases o with
  | none =>
      by_cases hd : truthy d <;> simp [jsOr, hd]
  | some v =>
      by_cases hv : truthy v
      · simp [jsOr, hv]
      · by_cases hd : truthy d <;> simp [jsOr, hv, hd]

end JS

namespace JS

theorem mapIdx_congr {α β : Type _} (f g : ℕ → α → β) (l : List α)
    (h : ∀ i a, f i a = g i a) : l.mapIdx f = l.mapIdx g := by
  induction l generalizing f g with
  | nil => simp
  | cons x xs ih =>
    simp only [List.mapIdx_cons, h 0 x]
    exact congrArg _ (ih _ _ (fun i a => h (i + 1) a))

theorem mapIdx_eq_self {α : Type _} (f : ℕ → α → α) (l : List α)
    (h : ∀ k (hk : k < l.length), f k (l.get ⟨k, hk⟩) = l.get ⟨k, hk⟩) :
    l.mapIdx f = l := by
  induction l generalizing f with
  | nil => simp
  | cons x xs ih =>
    simp only [List.mapIdx_cons]
    have h0 := h 0 (by simp)
    simp only [List.get] at h0
    rw [h0]
    exact congrArg _ (ih _ (fun k hk => h (k + 1) (by simpa using Nat.succ_lt_succ hk)))

/-- `l.mapIdx f` followed by `Prod.fst` recovers `l` when `f` pairs the
element with a flag. -/
theorem map_fst_mapIdx_pair {α : Type _} (l : List α) (g : ℕ → Bool) :
    (l.mapIdx (fun i a => (a, g i))).map Prod.fst = l := by
  induction l generalizing g with
  | nil => simp
  | cons x xs ih => simp [List.mapIdx_cons, ih]

/-- Exactly one element of the indexed flag list is flagged when the target
index is in range. -/
theorem countP_mapIdx_flag {α : Type _} (l : List α) (j : ℕ) (hj : j < l.length) :
    ((l.mapIdx (fun i a => (a, decide (i = j)))).countP (fun p => p.2)) = 1 := by
  induction l generalizing j with
  | nil => simp at hj
  | cons x xs ih =>
    cases j with
    | zero =>
      simp only [List.mapIdx_cons, List.countP_cons]
      have : ((xs.mapIdx fun i a => (a, decide (i + 1 = 0))).countP (fun p => p.2)) = 0 := by
        rw [List.countP_eq_zero]
        intro p hp
        have := List.mem_mapIdx.mp hp
        obtain ⟨i, hi, ha⟩ := this
        simp [← ha]
      simp [this]
    | succ j' =>
      have hj' : j' < xs.length := Nat.lt_of_succ_lt_succ hj
      simp only [List.mapIdx_cons, List.countP_cons]
      have heq : xs.mapIdx (fun i a => (a, decide (i + 1 = j' + 1))) =
          xs.mapIdx (fun i a => (a, decide (i = j'))) :=
        mapIdx_congr _ _ _ (fun i a => by simp)
      simp [heq, ih j' hj']

theorem jsFindIndex?_flag {α : Type _} (l : List α) (j : ℕ) (hj : j < l.length) :
    jsFindIndex? (l.mapIdx (fun i a => (a, decide (i = j)))) (fun p => p.2) = some j := by
  induction l generalizing j with
  | nil => simp at hj
  | cons x xs ih =>
    cases j with
    | zero => simp [List.mapIdx_cons, jsFindIndex?]
    | succ j' =>
      have hj' : j' < xs.length := Nat.lt_of_succ_lt_succ hj
      have heq : xs.mapIdx (fun i a => (a, decide (i + 1 = j' + 1))) =
          xs.mapIdx (fun i a => (a, decide (i = j'))) :=
        mapIdx_congr _ _ _ (fun i a => by simp)
      simp [List.mapIdx_cons, jsFindIndex?, heq, ih j' hj']

/-- When exactly one element is flagged, `findIndex` locates it, it is the
unique flagged position, and it is in range. -/
theorem jsFindIndex?_of_countP_one {β : Type _} (l : List (β × Bool))
    (h : l.countP (fun p => p.2) = 1) :
    ∃ n, ∃ hn : n < l.length, jsFindIndex? l (fun p => p.2) = some n ∧
      (l.get ⟨n, hn⟩).2 = true ∧
      ∀ m (hm : m < l.length), (l.get ⟨m, hm⟩).2 = true → m = n := by
  induction l with
  | nil => simp at h
  | cons x xs ih =>
    by_cases hx : x.2 = true
    · have htail : xs.countP (fun p => p.2) = 0 := by
        rw [List.countP_cons, if_pos hx] at h
        omega
      refine ⟨0, by simp, by simp [jsFindIndex?, hx], hx, ?_⟩
      intro m hm hflag
      cases m with
      | zero => rfl
      | succ m' =>
        exfalso
        have hm' : m' < xs.length := Nat.lt_of_succ_lt_succ hm
        have : ¬ (xs.get ⟨m', hm'⟩).2 = true :=
          List.countP_eq_zero.mp htail _ (xs.get_mem _ _)
        exact this hflag
    · have htail : xs.countP (fun p => p.2) = 1 := by
        rw [List.countP_cons, if_neg hx] at h
        omega
      obtain ⟨n, hn, hfind, hflag, huniq⟩ := ih htail
      refine ⟨n + 1, Nat.succ_lt_succ hn, ?_, hflag, ?_⟩
      · simp [jsFindIndex?, hx, hfind]
      · intro m hm hmflag
        cases m with
        | zero => exact absurd hmflag hx
        | succ m' =>
          have hm' : m' < xs.length := Nat.lt_of_succ_lt_succ hm
          exact congrArg (· + 1) (huniq m' hm' hmflag)

end JS

namespace JS

theorem exceptBind_ok {α β ε : Type _} (a : α) (f : α → Except ε β) :
    (Except.ok a >>= f) = f a := rfl

theorem exceptBind_err {α β ε : Type _} (e : ε) (f : α → Except ε β) :
    ((Except.error e : Except ε α) >>= f) = .error e := rfl

theorem exceptPure {α ε : Type _} (a : α) : (pure a : Except ε α) = .ok a := rfl

theorem mapM_ok_length {α β ε : Type _} {f : α → Except ε β} :
    ∀ {l : List α} {bs : List β}, l.mapM f = .ok bs → bs.length = l.length := by
  intro l
  induction l with
  | nil =>
    intro bs h
    simp only [List.mapM_nil, exceptPure] at h
    cases h
    rfl
  | cons x xs ih =>
    intro bs h
    rw [List.mapM_cons] at h
    cases hfa : f x with
    | error e =>
      rw [hfa] at h
      simp only [exceptBind_err] at h
      exact absurd h (by simp)
    | ok b =>
      rw [hfa] at h
      simp only [exceptBind_ok] at h
      cases hrest : xs.mapM f with
      | error e =>
        rw [hrest] at h
        simp only [exceptBind_err] at h
        exact absurd h (by simp)
      | ok bs0 =>
        rw [hrest] at h
        simp only [exceptBind_ok, exceptPure, Except.ok.injEq] at h
        subst h
        simp [ih hrest]

theorem mapM_ok_get {α β ε : Type _} {f : α → Except ε β} :
    ∀ {l : List α} {bs : List β}, l.mapM f = .ok bs →
      ∀ k (hk : k < l.length) (hk' : k < bs.length),
        f (l.get ⟨k, hk⟩) = .ok (bs.get ⟨k, hk'⟩) := by
  intro l
  induction l with
  | nil => intro bs h k hk; simp at hk
  | cons x xs ih =>
    intro bs h k hk hk'
    rw [List.mapM_cons] at h
    cases hfa : f x with
    | error e =>
      rw [hfa] at h
      simp only [exceptBind_err] at h
      exact absurd h (by simp)
    | ok b =>
      rw [hfa] at h
      simp only [exceptBind_ok] at h
      cases hrest : xs.mapM f with
      | error e =>
        rw [hrest] at h
        simp only [exceptBind_err] at h
        exact absurd h (by simp)
      | ok bs0 =>
        rw [hrest] at h
        simp only [exceptBind_ok, exceptPure, Except.ok.injEq] at h
        subst h
        cases k with
        | zero => simpa using hfa
        | succ k0 =>
          exact ih hrest k0 (Nat.lt_of_succ_lt_succ hk) (Nat.lt_of_succ_lt_succ hk')

theorem exists_mapM_ok {α β ε : Type _} {f : α → Except ε β} :
    ∀ {l : List α}, (∀ a ∈ l, ∃ b, f a = .ok b) → ∃ bs, l.mapM f = .ok bs := by
  intro l
  induction l with
  | nil => intro _; exact ⟨[], rfl⟩
  | cons x xs ih =>
    intro h
    obtain ⟨b, hb⟩ := h x (List.mem_cons_self x xs)
    obtain ⟨bs, hbs⟩ := ih (fun a ha => h a (List.mem_cons_of_mem x ha))
    exact ⟨b :: bs, by rw [List.mapM_cons, hb, hbs]; rfl⟩

theorem mapM_ok_of_forall_eq {α ε : Type _} {f : α → Except ε α} :
    ∀ {l : List α}, (∀ a ∈ l, f a = .ok a) → l.mapM f = .ok l := by
  intro l
  induction l with
  | nil => intro _; rfl
  | cons x xs ih =>
    intro h
    rw [List.mapM_cons, h x (List.mem_cons_self x xs),
      ih (fun a ha => h a (List.mem_cons_of_mem x ha))]
    rfl

/-- Everything `setProp` returns is an object or an array (hence truthy),
and reading back a non-index key returns the assigned value. -/
theorem setProp_ok_truthy {v k x w} (h : setProp v k x = .ok w) : truthy w = true := by
  cases v <;> simp [setProp] at h <;> simp [← h, truthy]

theorem getFieldOpt_setProp {v k x w} (hk : toIndex? k = none)
    (h : setProp v k x = .ok w) : getFieldOpt w k = some x := by
  cases v <;> simp [setProp] at h <;>
    simp [← h, getFieldOpt, hk, lookupF_setF_self]

theorem setProp_idem {v k x w} (h : setProp v k x = .ok w) :
    setProp w k x = .ok w := by
  cases v <;> simp [setProp] at h <;> simp [← h, setProp, setF_setF]

end JS

/-! ## The per-question pipeline: facts about `normalizeQuestion` and the
option shuffle -/

namespace Frontend

open JS JSValue

/-- The four placeholder labels as a list. -/
def placeholderList : List JSValue :=
  [.str "Option A", .str "Option B", .str "Option C", .str "Option D"]

theorem placeholderOptions_eq : placeholderOptions = .arr placeholderList [] := rfl

/-- The option list `normalizeQuestion` produces (before the shuffle):
the first four source options when there are at least four, otherwise the
placeholder labels. -/
def preOptions (q : JSValue) : List JSValue :=
  match getFieldOpt q "options" with
  | some (.arr es _) => if 4 ≤ es.length then es.take 4 else placeholderList
  | _ => placeholderList

/-- The `correctAnswer` value `normalizeQuestion` keeps: the source value
when it is an integer in `[0, 3]`, otherwise `0`. -/
def validCA (q : JSValue) : ℕ :=
  match getFieldOpt q "correctAnswer" with
  | some (.num c) => if c.den = 1 ∧ 0 ≤ c ∧ c ≤ 3 then c.num.toNat else 0
  | _ => 0

theorem length_preOptions (q : JSValue) : (preOptions q).length = 4 := by
  unfold preOptions
  cases h : getFieldOpt q "options" with
  | none => rfl
  | some v =>
    cases v with
    | arr es ps =>
      by_cases hlen : 4 ≤ es.length
      · simp [hlen, List.length_take, Nat.min_eq_left hlen]
      · simp [hlen, placeholderList]
    | null => rfl
    | bool b => rfl
    | num q => rfl
    | str s => rfl
    | obj fs => rfl

theorem validCA_lt_four (q : JSValue) : validCA q < 4 := by
  unfold validCA
  split
  · rename_i c heq
    by_cases hv2 : c.den = 1 ∧ 0 ≤ c ∧ c ≤ 3
    · rw [if_pos hv2]
      obtain ⟨hden, hnn, hle⟩ := hv2
      have hc : ((c.num : ℚ)) = c := (Rat.den_eq_one_iff c).mp hden
      have hnum_le : c.num ≤ 3 := by
        have h3 : ((c.num : ℚ)) ≤ ((3 : ℤ) : ℚ) := by rw [hc]; exact_mod_cast hle
        exact_mod_cast h3
      omega
    · rw [if_neg hv2]; omega
  · omega

theorem getFieldOpt_normalizeQuestion_options (i : ℕ) (q : JSValue) :
    getFieldOpt (normalizeQuestion i q) "options" =
      some (.arr (preOptions q) []) := by
  unfold normalizeQuestion preOptions
  cases h : getFieldOpt q "options" with
  | none => simp [getFieldOpt, lookupF, placeholderOptions_eq]
  | some v =>
    cases v with
    | arr es ps =>
      simp [getFieldOpt, lookupF, placeholderOptions_eq]
      by_cases hlen : 4 ≤ es.length <;> simp [hlen]
    | null => simp [getFieldOpt, lookupF, placeholderOptions_eq]
    | bool b => simp [getFieldOpt, lookupF, placeholderOptions_eq]
    | num c => simp [getFieldOpt, lookupF, placeholderOptions_eq]
    | str s => simp [getFieldOpt, lookupF, placeholderOptions_eq]
    | obj fs => simp [getFieldOpt, lookupF, placeholderOptions_eq]

theorem getFieldOpt_normalizeQuestion_ca (i : ℕ) (q : JSValue) :
    getFieldOpt (normalizeQuestion i q) "correctAnswer" =
      some (.num ((validCA q : ℕ) : ℚ)) := by
  unfold normalizeQuestion validCA
  cases h : getFieldOpt q "correctAnswer" with
  | none => simp [getFieldOpt, lookupF]
  | some v =>
    cases v with
    | num c =>
      by_cases hv : c.den = 1 ∧ 0 ≤ c ∧ c ≤ 3
      · obtain ⟨hden, hnn, hle⟩ := hv
        have hc : ((c.num : ℚ)) = c := (Rat.den_eq_one_iff c).mp hden
        have hnum_nn : 0 ≤ c.num := Rat.num_nonneg.mpr hnn
        have htn : ((c.num.toNat : ℤ)) = c.num := Int.toNat_of_nonneg hnum_nn
        have : ((c.num.toNat : ℕ) : ℚ) = c := by
          rw [← hc]
          exact_mod_cast congrArg (fun z => ((z : ℤ) : ℚ)) htn
        simp [getFieldOpt, lookupF, hden, hnn, hle, this]
      · simp [getFieldOpt, lookupF, if_neg hv]
    | null => simp [getFieldOpt, lookupF]
    | bool b => simp [getFieldOpt, lookupF]
    | str s => simp [getFieldOpt, lookupF]
    | arr es ps => simp [getFieldOpt, lookupF]
    | obj fs => simp [getFieldOpt, lookupF]

end Frontend

namespace Frontend

open JS JSValue

/-- Specification of `shuffleQuestionOptions` on a question whose options
are an array of four and whose `correctAnswer` is a natural number below 4
(the shape `normalizeQuestion` always produces): the call succeeds, the
output options are a permutation of the input options, and the rewritten
`correctAnswer` points at the slot now holding the originally-correct
option. -/
theorem shuffleQuestion_spec (g : ℕ → ℕ) (q : JSValue) (texts : List JSValue)
    (tps : List (String × JSValue)) (j : ℕ)
    (hopt : getFieldOpt q "options" = some (.arr texts tps))
    (hlen : texts.length = 4)
    (hca : getFieldOpt q "correctAnswer" = some (.num (j : ℚ)))
    (hj : j < 4) :
    ∃ outTexts : List JSValue, ∃ n : ℕ,
      shuffleQuestionOptions g q =
        .ok (.obj (setF (setF (spreadFields q) "options" (.arr outTexts []))
          "correctAnswer" (.num (n : ℚ)))) ∧
      List.Perm outTexts texts ∧ outTexts.length = 4 ∧ n < 4 ∧
      (∀ t, outTexts.count t = texts.count t) ∧
      ∃ hn : n < outTexts.length, ∃ hj2 : j < texts.length,
        outTexts.get ⟨n, hn⟩ = texts.get ⟨j, hj2⟩ := by
  have hj2 : j < texts.length := by omega
  have htake : texts.take 4 = texts := List.take_of_length_le (by omega)
  have hcongr : texts.mapIdx (fun idx o =>
        (o, decide ((j : ℚ) = (idx : ℚ)))) =
      texts.mapIdx (fun idx o => (o, decide (idx = j))) := by
    refine mapIdx_congr _ _ _ (fun i a => ?_)
    have hiff : ((j : ℚ) = (i : ℚ)) ↔ (i = j) := by
      constructor
      · intro h; exact_mod_cast h.symm
      · intro h; exact_mod_cast congrArg (fun z : ℕ => (z : ℚ)) h.symm
    exact congrArg (Prod.mk a) (decide_eq_decide.mpr hiff)
  set opts := texts.mapIdx (fun idx o => (o, decide (idx = j))) with hopts_def
  have hperm : List.Perm (shuffleArray g opts) opts := shuffleArray_perm g opts
  have hoptslen : opts.length = texts.length := List.length_mapIdx
  have hcount : opts.countP (fun p => p.2) = 1 := countP_mapIdx_flag texts j hj2
  have hcount' : (shuffleArray g opts).countP (fun p => p.2) = 1 :=
    (hperm.countP_eq _).trans hcount
  obtain ⟨n, hn, hfind, hflag, huniq⟩ := jsFindIndex?_of_countP_one _ hcount'
  have hjopts : j < opts.length := by omega
  have hgetj : opts.get ⟨j, hjopts⟩ = (texts.get ⟨j, hj2⟩, true) := by
    simp [hopts_def, List.get_eq_getElem, List.getElem_mapIdx]
  have hmem : (texts.get ⟨j, hj2⟩, true) ∈ shuffleArray g opts := by
    refine (hperm.mem_iff).mpr ?_
    rw [← hgetj]
    exact List.get_mem _ _ _
  obtain ⟨m, hm⟩ := List.mem_iff_get.mp hmem
  have hmn : m.1 = n := huniq m.1 m.2 (by rw [hm])
  have hgetn : (shuffleArray g opts).get ⟨n, hn⟩ = (texts.get ⟨j, hj2⟩, true) := by
    rw [← hm]
    congr 1
    exact (Fin.ext hmn).symm
  refine ⟨(shuffleArray g opts).map Prod.fst, n, ?_, ?_, ?_, ?_, ?_, ?_⟩
  · unfold shuffleQuestionOptions
    rw [hopt]
    have hjsor : jsOr (some (.arr texts tps)) (.arr [] []) = .arr texts tps :=
      jsOr_of_truthy _ _ rfl
    rw [hjsor]
    simp only [hca, htake, hcongr, ← hopts_def, hfind]
  · have h1 : List.Perm ((shuffleArray g opts).map Prod.fst) (opts.map Prod.fst) :=
      hperm.map _
    rwa [hopts_def, map_fst_mapIdx_pair] at h1
  · rw [List.length_map, hperm.length_eq]
    omega
  · have : n < (shuffleArray g opts).length := hn
    rw [hperm.length_eq] at this
    omega
  · intro t
    have h1 := (hperm.map Prod.fst).count_eq t
    rwa [hopts_def, map_fst_mapIdx_pair] at h1
  · refine ⟨by simpa using hn, hj2, ?_⟩
    have hmapget : ((shuffleArray g opts).map Prod.fst).get ⟨n, by simpa using hn⟩ =
        Prod.fst ((shuffleArray g opts).get ⟨n, hn⟩) := by
      simp [List.get_eq_getElem]
    rw [hmapget, hgetn]

end Frontend

namespace Frontend

open JS JSValue

/-- The outer field list the normalizer has built by the time it assigns
`out.finalTest.questions` (everything except that last assignment). -/
def normFields5 (x : JSValue) : List (String × JSValue) :=
  let f0 := spreadFields x
  let ct := jsOr (lookupF f0 "courseTitle") (.str "Untitled Course")
  let f1 := setF f0 "courseTitle" ct
  let cd := jsOr (lookupF f1 "courseDescription")
    (.str "AI-generated course from the uploaded syllabus.")
  let f2 := setF f1 "courseDescription" cd
  let u0 : JSValue :=
    match lookupF f2 "units" with
    | some (.arr es ps) => .arr es ps
    | _ => .arr [] []
  let f3 := setF f2 "units" u0
  let us : JSValue := .arr ((arrElems u0).mapIdx normalizeUnit) []
  let f4 := setF f3 "units" us
  setF f4 "finalTest" (jsOr (lookupF f4 "finalTest") (.obj []))

theorem exceptBind_eq_match {α β ε : Type _} (m : Except ε α) (f : α → Except ε β) :
    (m >>= f) = match m with | .error e => .error e | .ok a => f a := by
  cases m <;> rfl

theorem mapIdx_match_option (o : Option JSValue) :
    (match o with
     | some (.arr es _) => es.mapIdx normalizeQuestion
     | _ => ([] : List JSValue)) =
      (match o with
       | some (.arr es _) => es
       | _ => ([] : List JSValue)).mapIdx normalizeQuestion := by
  rcases o with _ | v
  · rfl
  · cases v <;> rfl

/-- `normalizeCourseJSON` decomposed: shuffle the normalized questions,
assign them onto the (defaulted) `finalTest` value, and place that into the
otherwise-normalized field list. -/
theorem normalize_structure (gs : ℕ → ℕ → ℕ) (x : JSValue) :
    normalizeCourseJSON gs x =
      (((inputQuestions x).mapIdx normalizeQuestion).enum.mapM
          (fun p => shuffleQuestionOptions (gs p.1) p.2)) >>= fun qs =>
        (setProp (inputFinalTest x) "questions" (.arr qs [])) >>= fun ft2 =>
          pure (.obj (setF (normFields5 x) "finalTest" ft2)) := by
  have h1 : ∀ (f0 : List (String × JSValue)) ct cd u0 us,
      lookupF (setF (setF (setF (setF f0 "courseTitle" ct)
        "courseDescription" cd) "units" u0) "units" us) "finalTest" =
        lookupF f0 "finalTest" := by
    intro f0 ct cd u0 us
    rw [lookupF_setF_ne _ _ _ _ (by decide), lookupF_setF_ne _ _ _ _ (by decide),
      lookupF_setF_ne _ _ _ _ (by decide), lookupF_setF_ne _ _ _ _ (by decide)]
  simp only [normalizeCourseJSON, normFields5, inputFinalTest, inputQuestions,
    h1, mapIdx_match_option]

theorem shuffle_nq_spec (g : ℕ → ℕ) (i : ℕ) (q : JSValue) :
    ∃ outTexts : List JSValue, ∃ n : ℕ,
      shuffleQuestionOptions g (normalizeQuestion i q) =
        .ok (.obj (setF (setF (spreadFields (normalizeQuestion i q)) "options"
          (.arr outTexts [])) "correctAnswer" (.num (n : ℚ)))) ∧
      List.Perm outTexts (preOptions q) ∧ outTexts.length = 4 ∧ n < 4 ∧
      (∀ t, outTexts.count t = (preOptions q).count t) ∧
      ∃ hn : n < outTexts.length, ∃ hj2 : validCA q < (preOptions q).length,
        outTexts.get ⟨n, hn⟩ = (preOptions q).get ⟨validCA q, hj2⟩ :=
  shuffleQuestion_spec g (normalizeQuestion i q) (preOptions q) [] (validCA q)
    (getFieldOpt_normalizeQuestion_options i q) (length_preOptions q)
    (getFieldOpt_normalizeQuestion_ca i q) (validCA_lt_four q)

theorem shuffle_nq_ok (g : ℕ → ℕ) (i : ℕ) (q : JSValue) :
    ∃ q', shuffleQuestionOptions g (normalizeQuestion i q) = .ok q' := by
  obtain ⟨outTexts, n, heq, -⟩ := shuffle_nq_spec g i q
  exact ⟨_, heq⟩

/-- The question-shuffling pass of the normalizer never throws. -/
theorem normalize_mapM_ok (gs : ℕ → ℕ → ℕ) (x : JSValue) :
    ∃ qs, ((inputQuestions x).mapIdx normalizeQuestion).enum.mapM
      (fun p => shuffleQuestionOptions (gs p.1) p.2) = .ok qs := by
  apply exists_mapM_ok
  intro p hp
  obtain ⟨fk, hfk⟩ := List.mem_iff_get.mp hp
  have hfk2 : p = (fk.1, ((inputQuestions x).mapIdx normalizeQuestion).get
      ⟨fk.1, by simpa [List.enum_length] using fk.2⟩) := by
    rw [← hfk]
    simp [List.get_eq_getElem, List.getElem_enum]
  have hval : ((inputQuestions x).mapIdx normalizeQuestion).get
      ⟨fk.1, by simpa [List.enum_length] using fk.2⟩ =
      normalizeQuestion fk.1 ((inputQuestions x).get
        ⟨fk.1, by simpa [List.enum_length, List.length_mapIdx] using fk.2⟩) := by
    simp [List.get_eq_getElem, List.getElem_mapIdx]
  rw [hfk2, hval]
  exact shuffle_nq_ok _ _ _

/-- Whether the input's `finalTest` field (if any) is safe to assign a
property onto: absent, falsy, or an object/array.  When it is a truthy
primitive, `out.finalTest.questions = …` throws a strict-mode `TypeError`. -/
def ftSafe (x : JSValue) : Bool :=
  match lookupF (spreadFields x) "finalTest" with
  | some (.num c) => c = 0
  | some (.str s) => s = ""
  | some (.bool b) => !b
  | _ => true

theorem setProp_inputFinalTest (x : JSValue) (hsafe : ftSafe x = true) (w : JSValue) :
    ∃ ft2, setProp (inputFinalTest x) "questions" w = .ok ft2 := by
  unfold ftSafe at hsafe
  unfold inputFinalTest
  cases h : lookupF (spreadFields x) "finalTest" with
  | none => exact ⟨_, rfl⟩
  | some v =>
    rw [h] at hsafe
    cases v with
    | null => exact ⟨_, rfl⟩
    | bool b =>
      cases b with
      | false => exact ⟨_, rfl⟩
      | true => simp at hsafe
    | num c =>
      have hc : c = 0 := by simpa using hsafe
      subst hc
      exact ⟨_, rfl⟩
    | str s =>
      have hs : s = "" := by simpa using hsafe
      subst hs
      exact ⟨_, rfl⟩
    | arr es ps =>
      exact ⟨.arr es (setF ps "questions" w), by simp [jsOr, truthy, setProp]⟩
    | obj fs =>
      exact ⟨.obj (setF fs "questions" w), by simp [jsOr, truthy, setProp]⟩

theorem normalize_ok_inversion (gs : ℕ → ℕ → ℕ) (x y : JSValue)
    (h : normalizeCourseJSON gs x = .ok y) :
    ∃ qs ft2, ((inputQuestions x).mapIdx normalizeQuestion).enum.mapM
        (fun p => shuffleQuestionOptions (gs p.1) p.2) = .ok qs ∧
      setProp (inputFinalTest x) "questions" (.arr qs []) = .ok ft2 ∧
      y = .obj (setF (normFields5 x) "finalTest" ft2) ∧
      outQuestions y = qs := by
  rw [normalize_structure] at h
  cases hm : ((inputQuestions x).mapIdx normalizeQuestion).enum.mapM
      (fun p => shuffleQuestionOptions (gs p.1) p.2) with
  | error e =>
    rw [hm] at h
    simp only [exceptBind_err] at h
    exact absurd h (by simp)
  | ok qs =>
    rw [hm] at h
    simp only [exceptBind_ok] at h
    cases hs : setProp (inputFinalTest x) "questions" (.arr qs []) with
    | error e =>
      rw [hs] at h
      simp only [exceptBind_err] at h
      exact absurd h (by simp)
    | ok ft2 =>
      rw [hs] at h
      simp only [exceptBind_ok, exceptPure, Except.ok.injEq] at h
      refine ⟨qs, ft2, rfl, hs, h.symm, ?_⟩
      have h1 : getFieldOpt (JSValue.obj (setF (normFields5 x) "finalTest" ft2))
          "finalTest" = some ft2 := by
        simp [getFieldOpt, lookupF_setF_self]
      subst h
      simp only [outQuestions, h1]
      rw [getFieldOpt_setProp (by decide) hs]

theorem normalize_ok_of (gs : ℕ → ℕ → ℕ) (x : JSValue) {qs : List JSValue}
    {ft2 : JSValue}
    (hm : ((inputQuestions x).mapIdx normalizeQuestion).enum.mapM
      (fun p => shuffleQuestionOptions (gs p.1) p.2) = .ok qs)
    (hs : setProp (inputFinalTest x) "questions" (.arr qs []) = .ok ft2) :
    normalizeCourseJSON gs x = .ok (.obj (setF (normFields5 x) "finalTest" ft2)) := by
  rw [normalize_structure, hm, exceptBind_ok, hs, exceptBind_ok, exceptPure]

theorem optionsOf_shuffled (F : List (String × JSValue)) (outTexts : List JSValue)
    (v : JSValue) :
    optionsOf (.obj (setF (setF F "options" (.arr outTexts []))
      "correctAnswer" v)) = outTexts := by
  unfold optionsOf
  simp only [getFieldOpt]
  rw [lookupF_setF_ne (setF F "options" (.arr outTexts [])) "correctAnswer"
    "options" v (by decide), lookupF_setF_self]

theorem caOf_shuffled (F : List (String × JSValue)) (o v : JSValue) :
    caOf (.obj (setF (setF F "options" o) "correctAnswer" v)) = v := by
  unfold caOf
  simp only [getFieldOpt, lookupF_setF_self]

theorem outQuestions_build (x : JSValue) {qs0 : List JSValue} {ft2 : JSValue}
    (hs : setProp (inputFinalTest x) "questions" (.arr qs0 []) = .ok ft2) :
    outQuestions (.obj (setF (normFields5 x) "finalTest" ft2)) = qs0 := by
  have h1 : getFieldOpt (JSValue.obj (setF (normFields5 x) "finalTest" ft2))
      "finalTest" = some ft2 := by
    simp [getFieldOpt, lookupF_setF_self]
  simp only [outQuestions, h1]
  rw [getFieldOpt_setProp (by decide) hs]

/-- The `k`-th output question of a successful normalization is the shuffle
of the `k`-th normalized input question, with all the shuffle guarantees. -/
theorem normalize_question_spec (gs : ℕ → ℕ → ℕ) (x y : JSValue) (k : ℕ)
    (h : normalizeCourseJSON gs x = .ok y) (hk : k < (inputQuestions x).length) :
    ∃ hk' : k < (outQuestions y).length, ∃ outTexts : List JSValue, ∃ n : ℕ,
      (outQuestions y).get ⟨k, hk'⟩ =
        .obj (setF (setF (spreadFields (normalizeQuestion k
          ((inputQuestions x).get ⟨k, hk⟩))) "options" (.arr outTexts []))
          "correctAnswer" (.num (n : ℚ))) ∧
      List.Perm outTexts (preOptions ((inputQuestions x).get ⟨k, hk⟩)) ∧
      outTexts.length = 4 ∧ n < 4 ∧
      (∀ t, outTexts.count t =
        (preOptions ((inputQuestions x).get ⟨k, hk⟩)).count t) ∧
      ∃ hn : n < outTexts.length,
      ∃ hv : validCA ((inputQuestions x).get ⟨k, hk⟩) <
          (preOptions ((inputQuestions x).get ⟨k, hk⟩)).length,
        outTexts.get ⟨n, hn⟩ =
          (preOptions ((inputQuestions x).get ⟨k, hk⟩)).get
            ⟨validCA ((inputQuestions x).get ⟨k, hk⟩), hv⟩ := by
  obtain ⟨qs, ft2, hm, hs, hy, hout⟩ := normalize_ok_inversion gs x y h
  have hlen : qs.length = (inputQuestions x).length := by
    have := mapM_ok_length hm
    simpa [List.enum_length, List.length_mapIdx] using this
  have hk' : k < (outQuestions y).length := by rw [hout]; omega
  have hkenum : k < (((inputQuestions x).mapIdx normalizeQuestion).enum).length := by
    simpa [List.enum_length, List.length_mapIdx] using hk
  have hkq : k < qs.length := by omega
  have hget := mapM_ok_get hm k hkenum hkq
  have henum : (((inputQuestions x).mapIdx normalizeQuestion).enum).get ⟨k, hkenum⟩ =
      (k, normalizeQuestion k ((inputQuestions x).get ⟨k, hk⟩)) := by
    simp [List.get_eq_getElem, List.getElem_enum, List.getElem_mapIdx]
  rw [henum] at hget
  obtain ⟨outTexts, n, heq, hperm, hlen4, hn4, hcnt, hn, hv, htrack⟩ :=
    shuffle_nq_spec (gs k) k ((inputQuestions x).get ⟨k, hk⟩)
  rw [heq] at hget
  have hqk : qs.get ⟨k, hkq⟩ =
      .obj (setF (setF (spreadFields (normalizeQuestion k
        ((inputQuestions x).get ⟨k, hk⟩))) "options" (.arr outTexts []))
        "correctAnswer" (.num (n : ℚ))) := by
    injection hget with hh
    exact hh.symm
  refine ⟨hk', outTexts, n, ?_, hperm, hlen4, hn4, hcnt, hn, hv, htrack⟩
  have : (outQuestions y).get ⟨k, hk'⟩ = qs.get ⟨k, hkq⟩ := by
    simp [List.get_eq_getElem, hout]
  rw [this, hqk]

end Frontend
namespace Frontend

open JS JSValue

theorem str_append_ne_empty (a b : String) (ha : a ≠ "") : a ++ b ≠ "" := by
  intro h
  apply ha
  have hd := congrArg String.data h
  rw [String.data_append] at hd
  exact String.ext (List.append_eq_nil.mp hd).1

theorem truthy_str_append (a b : String) (ha : a ≠ "") :
    truthy (.str (a ++ b)) = true := by
  simp [truthy, str_append_ne_empty a b ha]

theorem getFieldOpt_obj (fs : List (String × JSValue)) (k : String) :
    getFieldOpt (.obj fs) k = lookupF fs k := rfl

theorem filter_take_stable (kp : List JSValue) :
    (((kp.filter truthy).take 10).filter truthy).take 10 =
      (kp.filter truthy).take 10 := by
  have h1 : ((kp.filter truthy).take 10).filter truthy =
      (kp.filter truthy).take 10 :=
    List.filter_eq_self.mpr
      (fun a ha => (List.mem_filter.mp (List.take_subset _ _ ha)).2)
  rw [h1, List.take_take]
  norm_num

/-- A second normalization pass leaves a normalized lesson unchanged
(whatever positional indices the passes use). -/
theorem normalizeLesson_stable (i j i' j' : ℕ) (l : JSValue) :
    normalizeLesson i' j' (normalizeLesson i j l) = normalizeLesson i j l := by
  have hid : jsOr (some (jsOr (getFieldOpt l "id")
      (.str ("u" ++ toString (i + 1) ++ "l" ++ toString (j + 1)))))
      (.str ("u" ++ toString (i' + 1) ++ "l" ++ toString (j' + 1))) =
      jsOr (getFieldOpt l "id")
        (.str ("u" ++ toString (i + 1) ++ "l" ++ toString (j + 1))) :=
    jsOr_of_truthy _ _ (truthy_jsOr _ _ (truthy_str_append _ _
      (str_append_ne_empty _ _ (str_append_ne_empty "u" _ (by decide)))))
  have htitle : jsOr (some (jsOr (getFieldOpt l "title")
      (.str ("Lesson " ++ toString (j + 1)))))
      (.str ("Lesson " ++ toString (j' + 1))) =
      jsOr (getFieldOpt l "title") (.str ("Lesson " ++ toString (j + 1))) :=
    jsOr_of_truthy _ _ (truthy_jsOr _ _ (truthy_str_append "Lesson " _ (by decide)))
  unfold normalizeLesson
  simp only [getFieldOpt_obj, lookupF]
  norm_num
  refine ⟨hid, htitle, ?_, ?_⟩
  · cases hc : getFieldOpt l "content" with
    | none => rfl
    | some v => cases v <;> rfl
  · cases hk : getFieldOpt l "keyPoints" with
    | none => rfl
    | some v =>
      cases v with
      | arr es ps => simp [filter_take_stable]
      | null => rfl
      | bool b => rfl
      | num c => rfl
      | str s => rfl
      | obj fs => rfl

/-- A second normalization pass leaves a normalized unit unchanged. -/
theorem normalizeUnit_stable (i i' : ℕ) (u : JSValue) :
    normalizeUnit i' (normalizeUnit i u) = normalizeUnit i u := by
  have hid : jsOr (some (jsOr (getFieldOpt u "id")
      (.str ("u" ++ toString (i + 1))))) (.str ("u" ++ toString (i' + 1))) =
      jsOr (getFieldOpt u "id") (.str ("u" ++ toString (i + 1))) :=
    jsOr_of_truthy _ _ (truthy_jsOr _ _ (truthy_str_append "u" _ (by decide)))
  have htitle : jsOr (some (jsOr (getFieldOpt u "title")
      (.str ("Unit " ++ toString (i + 1))))) (.str ("Unit " ++ toString (i' + 1))) =
      jsOr (getFieldOpt u "title") (.str ("Unit " ++ toString (i + 1))) :=
    jsOr_of_truthy _ _ (truthy_jsOr _ _ (truthy_str_append "Unit " _ (by decide)))
  unfold normalizeUnit
  simp only [getFieldOpt_obj, lookupF]
  norm_num
  refine ⟨hid, htitle, jsOr_absorb _ _, ?_⟩
  cases hl : getFieldOpt u "lessons" with
  | none => rfl
  | some v =>
    cases v with
    | arr es ps =>
      simp [List.mapIdx_mapIdx]
      exact mapIdx_congr _ _ es (fun k a => normalizeLesson_stable i k i' k a)
    | null => rfl
    | bool b => rfl
    | num c => rfl
    | str s => rfl
    | obj fs => rfl

/-- The explicit field list of a shuffled normalized question. -/
theorem shuffled_question_explicit (g : ℕ → ℕ) (i : ℕ) (q q' : JSValue)
    (h : shuffleQuestionOptions g (normalizeQuestion i q) = .ok q') :
    ∃ outTexts : List JSValue, ∃ n : ℕ,
      q' = .obj [("id", jsOr (getFieldOpt q "id") (.str ("q" ++ toString (i + 1)))),
        ("question", jsOr (getFieldOpt q "question")
          (.str ("Question " ++ toString (i + 1)))),
        ("options", .arr outTexts []),
        ("correctAnswer", .num (n : ℚ)),
        ("explanation", jsOr (getFieldOpt q "explanation") (.str ""))] ∧
      outTexts.length = 4 ∧ n < 4 := by
  obtain ⟨outTexts, n, heq, hperm, hlen4, hn4, -⟩ := shuffle_nq_spec g i q
  rw [heq] at h
  injection h with h1
  refine ⟨outTexts, n, ?_, hlen4, hn4⟩
  rw [← h1]
  simp [normalizeQuestion, spreadFields, setF]

/-- A second normalization pass leaves a shuffled normalized question
unchanged (under any positional index). -/
theorem normalizeQuestion_of_shuffled (i' : ℕ) (idv qv evo : JSValue)
    (outTexts : List JSValue) (n : ℕ)
    (hidv : truthy idv = true) (hqv : truthy qv = true)
    (hev : jsOr (some evo) (.str "") = evo)
    (hlen : outTexts.length = 4) (hn : n < 4) :
    normalizeQuestion i' (.obj [("id", idv), ("question", qv),
      ("options", .arr outTexts []), ("correctAnswer", .num (n : ℚ)),
      ("explanation", evo)]) =
    .obj [("id", idv), ("question", qv), ("options", .arr outTexts []),
      ("correctAnswer", .num (n : ℚ)), ("explanation", evo)] := by
  have hca : ((n : ℚ)).den = 1 ∧ (0 : ℚ) ≤ (n : ℚ) ∧ ((n : ℚ)) ≤ 3 := by
    refine ⟨Rat.den_natCast n, Nat.cast_nonneg n, ?_⟩
    exact_mod_cast Nat.lt_succ_iff.mp hn
  unfold normalizeQuestion
  simp [getFieldOpt_obj, lookupF, jsOr_of_truthy _ _ hidv, jsOr_of_truthy _ _ hqv,
    hev, if_pos hca, le_of_eq hlen.symm, List.take_of_length_le (le_of_eq hlen)]
  exact fun h => absurd hn (by omega)

/-- The identity draw leaves a shuffled normalized question unchanged. -/
theorem shuffleId_of_shuffled (idv qv evo : JSValue)
    (outTexts : List JSValue) (n : ℕ)
    (hlen : outTexts.length = 4) (hn : n < 4) :
    shuffleQuestionOptions (fun m => m)
      (.obj [("id", idv), ("question", qv), ("options", .arr outTexts []),
        ("correctAnswer", .num (n : ℚ)), ("explanation", evo)]) =
    .ok (.obj [("id", idv), ("question", qv), ("options", .arr outTexts []),
      ("correctAnswer", .num (n : ℚ)), ("explanation", evo)]) := by
  have hnlen : n < outTexts.length := by omega
  have hcongr : outTexts.mapIdx (fun idx o =>
        (o, decide ((n : ℚ) = (idx : ℚ)))) =
      outTexts.mapIdx (fun idx o => (o, decide (idx = n))) := by
    refine mapIdx_congr _ _ _ (fun k a => ?_)
    have hiff : ((n : ℚ) = (k : ℚ)) ↔ (k = n) := by
      constructor
      · intro hh; exact_mod_cast hh.symm
      · intro hh; exact_mod_cast congrArg (fun z : ℕ => (z : ℚ)) hh.symm
    exact congrArg (Prod.mk a) (decide_eq_decide.mpr hiff)
  unfold shuffleQuestionOptions
  have hflip : outTexts.mapIdx (fun idx o => (o, decide (n = idx))) =
      outTexts.mapIdx (fun idx o => (o, decide (idx = n))) := by
    refine mapIdx_congr _ _ _ (fun k a => ?_)
    exact congrArg (Prod.mk a) (decide_eq_decide.mpr eq_comm)
  simp [getFieldOpt_obj, lookupF, jsOr_of_truthy (.arr outTexts []) _ rfl,
    List.take_of_length_le (le_of_eq hlen), hcongr,
    shuffleArray_id, map_fst_mapIdx_pair, spreadFields, setF]
  rw [hflip, jsFindIndex?_flag outTexts n hnlen]

/-- Both stability facts for the image of the question pipeline. -/
theorem shuffled_question_stable (g : ℕ → ℕ) (i : ℕ) (q q' : JSValue)
    (h : shuffleQuestionOptions g (normalizeQuestion i q) = .ok q') :
    (∀ i', normalizeQuestion i' q' = q') ∧
    shuffleQuestionOptions (fun m => m) q' = .ok q' := by
  obtain ⟨outTexts, n, hq', hlen, hn⟩ := shuffled_question_explicit g i q q' h
  have hidv : truthy (jsOr (getFieldOpt q "id")
      (.str ("q" ++ toString (i + 1)))) = true :=
    truthy_jsOr _ _ (truthy_str_append "q" _ (by decide))
  have hqv : truthy (jsOr (getFieldOpt q "question")
      (.str ("Question " ++ toString (i + 1)))) = true :=
    truthy_jsOr _ _ (truthy_str_append "Question " _ (by decide))
  subst hq'
  constructor
  · intro i'
    exact normalizeQuestion_of_shuffled i' _ _ _ _ n hidv hqv
      (jsOr_absorb _ _) hlen hn
  · exact shuffleId_of_shuffled _ _ _ _ n hlen hn


/-- Mapping the second component over an enumerated list with a function
that fixes every element succeeds with the original list. -/
theorem enum_mapM_id {α ε : Type _} (g : α → Except ε α) (l : List α)
    (h : ∀ a ∈ l, g a = .ok a) :
    l.enum.mapM (fun p => g p.2) = .ok l := by
  suffices haux : ∀ (l2 : List α) (n : ℕ), (∀ a ∈ l2, g a = .ok a) →
      (List.enumFrom n l2).mapM (fun p => g p.2) = .ok l2 by
    simpa [List.enum] using haux l 0 h
  intro l2
  induction l2 with
  | nil => intro n _; rfl
  | cons x xs ih =>
    intro n hh
    simp only [List.enumFrom, List.mapM_cons]
    rw [hh x (List.mem_cons_self x xs),
      ih (n + 1) (fun a ha => hh a (List.mem_cons_of_mem x ha))]
    rfl

/-- The `courseTitle` field of the normalized outer field list is present
and truthy (it was defaulted through `||`). -/
theorem lookupF_normFields5_ct (x : JSValue) :
    ∃ v, lookupF (normFields5 x) "courseTitle" = some v ∧ truthy v = true := by
  simp only [normFields5]
  rw [lookupF_setF_ne _ _ _ _ (by decide), lookupF_setF_ne _ _ _ _ (by decide),
    lookupF_setF_ne _ _ _ _ (by decide), lookupF_setF_ne _ _ _ _ (by decide),
    lookupF_setF_self]
  exact ⟨_, rfl, truthy_jsOr _ _ (by decide)⟩

/-- The `courseDescription` field of the normalized outer field list is
present and truthy. -/
theorem lookupF_normFields5_cd (x : JSValue) :
    ∃ v, lookupF (normFields5 x) "courseDescription" = some v ∧
      truthy v = true := by
  simp only [normFields5]
  rw [lookupF_setF_ne _ _ _ _ (by decide), lookupF_setF_ne _ _ _ _ (by decide),
    lookupF_setF_ne _ _ _ _ (by decide), lookupF_setF_self]
  exact ⟨_, rfl, truthy_jsOr _ _ (by decide)⟩

/-- The `units` field of the normalized outer field list is an array of
unit-normalized values with no extra properties. -/
theorem lookupF_normFields5_units (x : JSValue) :
    ∃ L : List JSValue, lookupF (normFields5 x) "units" =
      some (.arr (L.mapIdx normalizeUnit) []) := by
  simp only [normFields5]
  rw [lookupF_setF_ne _ _ _ _ (by decide), lookupF_setF_self]
  exact ⟨_, rfl⟩

/-- Re-normalizing an already unit-normalized array changes nothing. -/
theorem mapIdx_normalizeUnit_stable (L : List JSValue) :
    (L.mapIdx normalizeUnit).mapIdx normalizeUnit = L.mapIdx normalizeUnit := by
  rw [List.mapIdx_mapIdx]
  exact mapIdx_congr _ _ L (fun i a => normalizeUnit_stable i i a)

/-- A field list whose `courseTitle`/`courseDescription` are truthy, whose
`units` is an already-normalized plain array and whose `finalTest` is
truthy is a fixed point of the outer normalization steps. -/
theorem normFields5_fix (F : List (String × JSValue))
    (ctv cdv ftv : JSValue) (L : List JSValue)
    (hct : lookupF F "courseTitle" = some ctv) (hcttr : truthy ctv = true)
    (hcd : lookupF F "courseDescription" = some cdv)
    (hcdtr : truthy cdv = true)
    (hun : lookupF F "units" = some (.arr (L.mapIdx normalizeUnit) []))
    (hft : lookupF F "finalTest" = some ftv) (hfttr : truthy ftv = true) :
    normFields5 (.obj F) = F := by
  simp only [normFields5, spreadFields, hct, jsOr_of_truthy _ _ hcttr,
    setF_of_lookup F "courseTitle" ctv hct, hcd, jsOr_of_truthy _ _ hcdtr,
    setF_of_lookup F "courseDescription" cdv hcd, hun, arrElems,
    mapIdx_normalizeUnit_stable L, setF_of_lookup F "units" _ hun,
    hft, jsOr_of_truthy _ _ hfttr, setF_of_lookup F "finalTest" ftv hft]

end Frontend

/-! ## Claim theorems -/

namespace Claims

open JS JSValue Frontend JsonP Backend

/-- C1 (counterexample): `normalizeCourseJSON` is not total.  On the input
`{finalTest: true}` — a perfectly possible parsed-JSON value — the
strict-mode assignment `out.finalTest.questions = …` throws a `TypeError`,
because `out.finalTest || {}` is the truthy primitive `true`. -/
theorem claim1_counterexample :
    normalizeCourseJSON idGs (.obj [("finalTest", .bool true)]) = .error () := by
  rfl

/-- C1 (amended): for every random source and every input whose `finalTest`
field is not a truthy primitive (i.e. it is absent, falsy, an object or an
array — in particular for the empty object, null-ish fields and
missing/non-array fields), `normalizeCourseJSON` does not throw, and the
result's `units` and `finalTest.questions` are arrays. -/
theorem claim1_normalize_total (gs : ℕ → ℕ → ℕ) (x : JSValue)
    (hsafe : ftSafe x = true) :
    ∃ y, normalizeCourseJSON gs x = .ok y ∧
      (∃ us, getFieldOpt y "units" = some (.arr us [])) ∧
      (∃ ft, getFieldOpt y "finalTest" = some ft ∧
        ∃ qs, getFieldOpt ft "questions" = some (.arr qs [])) := by
  obtain ⟨qs, hm⟩ := normalize_mapM_ok gs x
  obtain ⟨ft2, hs⟩ := setProp_inputFinalTest x hsafe (.arr qs [])
  refine ⟨_, normalize_ok_of gs x hm hs, ?_, ?_⟩
  · have hunits : ∃ us, lookupF (normFields5 x) "units" = some (JSValue.arr us []) := by
      unfold normFields5
      rw [lookupF_setF_ne _ "finalTest" "units" _ (by decide), lookupF_setF_self]
      exact ⟨_, rfl⟩
    obtain ⟨us, hus⟩ := hunits
    refine ⟨us, ?_⟩
    simp only [getFieldOpt]
    rw [lookupF_setF_ne _ "finalTest" "units" _ (by decide), hus]
  · refine ⟨ft2, ?_, qs, ?_⟩
    · simp only [getFieldOpt]
      rw [lookupF_setF_self]
    · exact getFieldOpt_setProp (by decide) hs

/-- C1 (witness): the amended theorem applied to the empty object. -/
theorem claim1_witness :
    ∃ y, normalizeCourseJSON idGs (.obj []) = .ok y ∧
      (∃ us, getFieldOpt y "units" = some (.arr us [])) ∧
      (∃ ft, getFieldOpt y "finalTest" = some ft ∧
        ∃ qs, getFieldOpt ft "questions" = some (.arr qs [])) :=
  claim1_normalize_total idGs (.obj []) (by rfl)

/-- C10: `normalizeCourseJSON` preserves the number of quiz questions: on an
input whose `finalTest.questions` is an array of length `n`, normalization
succeeds and the output `finalTest.questions` has length exactly `n` — no
cap and no enforcement of any quiz-count target. -/
theorem claim10_question_count (gs : ℕ → ℕ → ℕ) (x ft : JSValue)
    (qs : List JSValue) (ps : List (String × JSValue))
    (h1 : lookupF (spreadFields x) "finalTest" = some ft)
    (h2 : getFieldOpt ft "questions" = some (.arr qs ps)) :
    ∃ y, normalizeCourseJSON gs x = .ok y ∧
      (outQuestions y).length = qs.length := by
  have hftv : inputFinalTest x = ft := by
    unfold inputFinalTest
    rw [h1]
    cases ft with
    | arr es aps => exact jsOr_of_truthy _ _ rfl
    | obj fs => exact jsOr_of_truthy _ _ rfl
    | null => simp [getFieldOpt] at h2
    | bool b => simp [getFieldOpt] at h2
    | num c => simp [getFieldOpt] at h2
    | str s => simp [getFieldOpt] at h2
  have hinput : inputQuestions x = qs := by
    unfold inputQuestions
    rw [hftv, h2]
  obtain ⟨qs0, hm⟩ := normalize_mapM_ok gs x
  have hset : ∃ ft2, setProp (inputFinalTest x) "questions" (.arr qs0 []) = .ok ft2 := by
    rw [hftv]
    cases ft with
    | arr es aps => exact ⟨_, rfl⟩
    | obj fs => exact ⟨_, rfl⟩
    | null => simp [getFieldOpt] at h2
    | bool b => simp [getFieldOpt] at h2
    | num c => simp [getFieldOpt] at h2
    | str s => simp [getFieldOpt] at h2
  obtain ⟨ft2, hs⟩ := hset
  refine ⟨_, normalize_ok_of gs x hm hs, ?_⟩
  rw [outQuestions_build x hs]
  have := mapM_ok_length hm
  simpa [List.enum_length, List.length_mapIdx, hinput] using this

/-- C10 (witness): a two-question input keeps exactly two questions. -/
theorem claim10_witness :
    ∃ y, normalizeCourseJSON idGs
        (.obj [("finalTest", .obj [("questions", .arr [.obj [], .obj []] [])])]) = .ok y ∧
      (outQuestions y).length = 2 :=
  claim10_question_count idGs _ (.obj [("questions", .arr [.obj [], .obj []] [])])
    [.obj [], .obj []] [] (by rfl) (by rfl)

/-- C4 (counterexample): the options of a question with fewer than four
options are not padded — they are replaced wholesale.  For the source
question `{options: ["x", "y"], correctAnswer: 0}` (shuffled here by the
identity draw) the normalized options are exactly the four placeholder
labels: the original option text `"x"` does not survive, which padding
would have preserved. -/
theorem claim4_counterexample :
    normalizeCourseJSON idGs
        (.obj [("finalTest", .obj [("questions", .arr
          [.obj [("options", .arr [.str "x", .str "y"] []),
                 ("correctAnswer", .num 0)]] [])])]) =
      .ok (.obj [("finalTest", .obj [("questions", .arr
          [.obj [("id", .str "q1"), ("question", .str "Question 1"),
                 ("options", .arr [.str "Option A", .str "Option B",
                   .str "Option C", .str "Option D"] []),
                 ("correctAnswer", .num 0), ("explanation", .str "")]] [])]),
        ("courseTitle", .str "Untitled Course"),
        ("courseDescription", .str "AI-generated course from the uploaded syllabus."),
        ("units", .arr [] [])]) ∧
    (JSValue.str "x") ∉ [JSValue.str "Option A", .str "Option B",
      .str "Option C", .str "Option D"] := by
  constructor
  · rfl
  · decide

/-- C4 (amended): every question processed by `normalizeCourseJSON` ends up
with exactly 4 options: a permutation of the first four source options when
the source has at least four, otherwise a permutation of the placeholder
labels `Option A..D` which replace the source options entirely; the source
`correctAnswer` is validated to an integer in `[0, 3]` (else treated as 0,
see `validCA`), and after the shuffle rewrite the stored `correctAnswer` is
again an integer in `[0, 3]`, pointing at the option that sat at the
validated index before the shuffle (`preOptions`). -/
theorem claim4_options_normalized (gs : ℕ → ℕ → ℕ) (x y : JSValue) (k : ℕ)
    (h : normalizeCourseJSON gs x = .ok y)
    (hk : k < (inputQuestions x).length) :
    ∃ hk' : k < (outQuestions y).length,
      (optionsOf ((outQuestions y).get ⟨k, hk'⟩)).length = 4 ∧
      (match getFieldOpt ((inputQuestions x).get ⟨k, hk⟩) "options" with
       | some (.arr es _) =>
           if 4 ≤ es.length then
             List.Perm (optionsOf ((outQuestions y).get ⟨k, hk'⟩)) (es.take 4)
           else
             List.Perm (optionsOf ((outQuestions y).get ⟨k, hk'⟩)) placeholderList
       | _ => List.Perm (optionsOf ((outQuestions y).get ⟨k, hk'⟩)) placeholderList) ∧
      (∃ n : ℕ, n < 4 ∧ caOf ((outQuestions y).get ⟨k, hk'⟩) = .num (n : ℚ) ∧
        ∃ hn : n < (optionsOf ((outQuestions y).get ⟨k, hk'⟩)).length,
        ∃ hv : validCA ((inputQuestions x).get ⟨k, hk⟩) <
            (preOptions ((inputQuestions x).get ⟨k, hk⟩)).length,
          (optionsOf ((outQuestions y).get ⟨k, hk'⟩)).get ⟨n, hn⟩ =
            (preOptions ((inputQuestions x).get ⟨k, hk⟩)).get
              ⟨validCA ((inputQuestions x).get ⟨k, hk⟩), hv⟩) := by
  obtain ⟨hk', outTexts, n, hq, hperm, hlen4, hn4, hcnt, hn, hv, htrack⟩ :=
    normalize_question_spec gs x y k h hk
  have hopts : optionsOf ((outQuestions y).get ⟨k, hk'⟩) = outTexts := by
    rw [hq]; exact optionsOf_shuffled _ _ _
  have hca : caOf ((outQuestions y).get ⟨k, hk'⟩) = .num (n : ℚ) := by
    rw [hq]; exact caOf_shuffled _ _ _
  refine ⟨hk', by rw [hopts]; exact hlen4, ?_, n, hn4, hca, ?_⟩
  · simp only [hopts]
    cases hsrc : getFieldOpt ((inputQuestions x).get ⟨k, hk⟩) "options" with
    | none =>
      have hpreval : preOptions ((inputQuestions x).get ⟨k, hk⟩) = placeholderList := by
        unfold preOptions; rw [hsrc]
      rw [hpreval] at hperm
      exact hperm
    | some v =>
      cases v with
      | arr es ps =>
        have hpreval : preOptions ((inputQuestions x).get ⟨k, hk⟩) =
            if 4 ≤ es.length then es.take 4 else placeholderList := by
          unfold preOptions; rw [hsrc]
        rw [hpreval] at hperm
        by_cases hlen : 4 ≤ es.length
        · rw [if_pos hlen] at hperm
          simpa [hlen] using hperm
        · rw [if_neg hlen] at hperm
          simpa [hlen] using hperm
      | null =>
        have hpreval : preOptions ((inputQuestions x).get ⟨k, hk⟩) = placeholderList := by
          unfold preOptions; rw [hsrc]
        rw [hpreval] at hperm
        exact hperm
      | bool b =>
        have hpreval : preOptions ((inputQuestions x).get ⟨k, hk⟩) = placeholderList := by
          unfold preOptions; rw [hsrc]
        rw [hpreval] at hperm
        exact hperm
      | num c =>
        have hpreval : preOptions ((inputQuestions x).get ⟨k, hk⟩) = placeholderList := by
          unfold preOptions; rw [hsrc]
        rw [hpreval] at hperm
        exact hperm
      | str s =>
        have hpreval : preOptions ((inputQuestions x).get ⟨k, hk⟩) = placeholderList := by
          unfold preOptions; rw [hsrc]
        rw [hpreval] at hperm
        exact hperm
      | obj fs =>
        have hpreval : preOptions ((inputQuestions x).get ⟨k, hk⟩) = placeholderList := by
          unfold preOptions; rw [hsrc]
        rw [hpreval] at hperm
        exact hperm
  · rw [hopts]
    exact ⟨hn, hv, htrack⟩

/-- C4 (witness): the amended theorem applied to a concrete one-question
course whose question has five options and `correctAnswer` 2. -/
theorem claim4_witness :
    ∃ hk' : 0 < (outQuestions (.obj [("finalTest", .obj [("questions", .arr
        [.obj [("id", .str "q1"), ("question", .str "Question 1"),
               ("options", .arr [.str "a", .str "b", .str "c", .str "d"] []),
               ("correctAnswer", .num 2), ("explanation", .str "")]] [])]),
      ("courseTitle", .str "Untitled Course"),
      ("courseDescription", .str "AI-generated course from the uploaded syllabus."),
      ("units", .arr [] [])])).length,
      (optionsOf ((outQuestions (.obj [("finalTest", .obj [("questions", .arr
        [.obj [("id", .str "q1"), ("question", .str "Question 1"),
               ("options", .arr [.str "a", .str "b", .str "c", .str "d"] []),
               ("correctAnswer", .num 2), ("explanation", .str "")]] [])]),
      ("courseTitle", .str "Untitled Course"),
      ("courseDescription", .str "AI-generated course from the uploaded syllabus."),
      ("units", .arr [] [])])).get ⟨0, hk'⟩)).length = 4 := by
  obtain ⟨hk', hlen, -, -⟩ := claim4_options_normalized idGs
    (.obj [("finalTest", .obj [("questions", .arr
        [.obj [("options", .arr [.str "a", .str "b", .str "c", .str "d", .str "e"] []),
               ("correctAnswer", .num 2)]] [])])]) _ 0 (by rfl) (by decide)
  exact ⟨hk', hlen⟩

/-- C3 (counterexample): "exactly one option's text equals the pre-shuffle
correct option's text" fails when option texts repeat.  For the question
`{options: ["a","a","b","c"], correctAnswer: 0}` (identity draw shown), the
pre-shuffle correct text is `"a"` and the normalized options contain it
twice. -/
theorem claim3_counterexample :
    normalizeCourseJSON idGs
        (.obj [("finalTest", .obj [("questions", .arr
          [.obj [("options", .arr [.str "a", .str "a", .str "b", .str "c"] []),
                 ("correctAnswer", .num 0)]] [])])]) =
      .ok (.obj [("finalTest", .obj [("questions", .arr
          [.obj [("id", .str "q1"), ("question", .str "Question 1"),
                 ("options", .arr [.str "a", .str "a", .str "b", .str "c"] []),
                 ("correctAnswer", .num 0), ("explanation", .str "")]] [])]),
        ("courseTitle", .str "Untitled Course"),
        ("courseDescription", .str "AI-generated course from the uploaded syllabus."),
        ("units", .arr [] [])]) ∧
    List.count (JSValue.str "a")
      [JSValue.str "a", .str "a", .str "b", .str "c"] = 2 := by
  constructor
  · rfl
  · rfl

/-- C3 (amended): for every question with at least 4 options before the
shuffle, after `normalizeCourseJSON` the question has exactly 4 options
(the first four source options, permuted), at least one option equals the
pre-shuffle correct option's text, `options[correctAnswer]` equals that
text, and — when the four pre-shuffle options are pairwise distinct —
exactly one option equals it. -/
theorem claim3_correct_option_tracked (gs : ℕ → ℕ → ℕ) (x y : JSValue) (k : ℕ)
    (es : List JSValue) (ps : List (String × JSValue))
    (h : normalizeCourseJSON gs x = .ok y)
    (hk : k < (inputQuestions x).length)
    (hes : getFieldOpt ((inputQuestions x).get ⟨k, hk⟩) "options" =
      some (.arr es ps))
    (hlen : 4 ≤ es.length) :
    preOptions ((inputQuestions x).get ⟨k, hk⟩) = es.take 4 ∧
    ∃ hk' : k < (outQuestions y).length,
      (optionsOf ((outQuestions y).get ⟨k, hk'⟩)).length = 4 ∧
      List.Perm (optionsOf ((outQuestions y).get ⟨k, hk'⟩))
        (preOptions ((inputQuestions x).get ⟨k, hk⟩)) ∧
      ∃ hv : validCA ((inputQuestions x).get ⟨k, hk⟩) <
          (preOptions ((inputQuestions x).get ⟨k, hk⟩)).length,
        (preOptions ((inputQuestions x).get ⟨k, hk⟩)).get
            ⟨validCA ((inputQuestions x).get ⟨k, hk⟩), hv⟩ ∈
          optionsOf ((outQuestions y).get ⟨k, hk'⟩) ∧
        (∃ n : ℕ, n < 4 ∧
          caOf ((outQuestions y).get ⟨k, hk'⟩) = .num (n : ℚ) ∧
          ∃ hn : n < (optionsOf ((outQuestions y).get ⟨k, hk'⟩)).length,
            (optionsOf ((outQuestions y).get ⟨k, hk'⟩)).get ⟨n, hn⟩ =
              (preOptions ((inputQuestions x).get ⟨k, hk⟩)).get
                ⟨validCA ((inputQuestions x).get ⟨k, hk⟩), hv⟩) ∧
        ((preOptions ((inputQuestions x).get ⟨k, hk⟩)).Nodup →
          (optionsOf ((outQuestions y).get ⟨k, hk'⟩)).count
            ((preOptions ((inputQuestions x).get ⟨k, hk⟩)).get
              ⟨validCA ((inputQuestions x).get ⟨k, hk⟩), hv⟩) = 1) := by
  obtain ⟨hk', outTexts, n, hq, hperm, hlen4, hn4, hcnt, hn, hv, htrack⟩ :=
    normalize_question_spec gs x y k h hk
  have hpreval : preOptions ((inputQuestions x).get ⟨k, hk⟩) = es.take 4 := by
    unfold preOptions
    rw [hes]
    simp [hlen]
  have hopts : optionsOf ((outQuestions y).get ⟨k, hk'⟩) = outTexts := by
    rw [hq]; exact optionsOf_shuffled _ _ _
  have hca : caOf ((outQuestions y).get ⟨k, hk'⟩) = .num (n : ℚ) := by
    rw [hq]; exact caOf_shuffled _ _ _
  refine ⟨hpreval, hk', by rw [hopts]; exact hlen4, ?_, hv, ?_,
    ⟨n, hn4, hca, ?_⟩, ?_⟩
  · rw [hopts]; exact hperm
  · rw [hopts]
    exact hperm.mem_iff.mpr (List.get_mem _ _ _)
  · rw [hopts]
    exact ⟨hn, htrack⟩
  · intro hnodup
    rw [hopts, hcnt]
    exact List.count_eq_one_of_mem hnodup (List.get_mem _ _ _)

/-- C3 (witness): the amended theorem applied to a question with the four
distinct options `a b c d` and `correctAnswer` 0. -/
theorem claim3_witness :
    ∃ hk' : 0 < (outQuestions (.obj [("finalTest", .obj [("questions", .arr
        [.obj [("id", .str "q1"), ("question", .str "Question 1"),
               ("options", .arr [.str "a", .str "b", .str "c", .str "d"] []),
               ("correctAnswer", .num 0), ("explanation", .str "")]] [])]),
      ("courseTitle", .str "Untitled Course"),
      ("courseDescription", .str "AI-generated course from the uploaded syllabus."),
      ("units", .arr [] [])])).length,
      (optionsOf ((outQuestions (.obj [("finalTest", .obj [("questions", .arr
        [.obj [("id", .str "q1"), ("question", .str "Question 1"),
               ("options", .arr [.str "a", .str "b", .str "c", .str "d"] []),
               ("correctAnswer", .num 0), ("explanation", .str "")]] [])]),
      ("courseTitle", .str "Untitled Course"),
      ("courseDescription", .str "AI-generated course from the uploaded syllabus."),
      ("units", .arr [] [])])).get ⟨0, hk'⟩)).length = 4 := by
  obtain ⟨-, hk', hlen4, -⟩ := claim3_correct_option_tracked idGs
    (.obj [("finalTest", .obj [("questions", .arr
      [.obj [("options", .arr [.str "a", .str "b", .str "c", .str "d"] []),
             ("correctAnswer", .num 0)]] [])])]) _ 0
    [.str "a", .str "b", .str "c", .str "d"] [] (by rfl) (by decide) (by rfl)
    (by decide)
  exact ⟨hk', hlen4⟩

/-- C5 (counterexample): when the brace-span substring also fails to parse,
the code does not raise the explicit malformed-output error — it rethrows
the second `JSON.parse` failure.  `"\x7b x \x7d"` has a brace span, the
span is not JSON, and the resulting error is the rethrown parse error, a
different error from the explicit `"Model output was not valid JSON."`. -/
theorem claim5_counterexample :
    safeParseJson "\x7b x \x7d" = .error .badJson ∧
    (LenientErr.badJson ≠ LenientErr.noJson) := by
  exact ⟨by decide, by decide⟩

/-- C5 (amended): the lenient extractor attempts a strict parse first; on
failure it extracts the substring from the first `\x7b` through the last
`\x7d` and parses that; the explicit malformed-output error is raised only
when no such substring exists — a failing substring parse rethrows that
parse's own error instead.  In particular `parse('\x7b"a":1\x7d')` yields
`{a: 1}`, the same JSON wrapped in prose yields `{a: 1}`, and
`parse('not json at all')` fails with the malformed-output error. -/
theorem claim5_lenient_extraction :
    safeParseJson "\x7b\"a\":1\x7d" = .ok (.obj [("a", .num 1)]) ∧
    safeParseJson "Here is your JSON:\n\x7b\"a\":1\x7d\nThanks!" =
      .ok (.obj [("a", .num 1)]) ∧
    safeParseJson "not json at all" = .error .noJson ∧
    (∀ raw v, jsonParse raw = .ok v → safeParseJson raw = .ok v) ∧
    (∀ raw, jsonParse raw = .error () →
      safeParseJson raw =
        match extractBraceSpan raw with
        | none => .error .noJson
        | some sub =>
            match jsonParse sub with
            | .ok v => .ok v
            | .error _ => .error .badJson) := by
  refine ⟨by decide, by decide, by decide, ?_, ?_⟩
  · intro raw v hv
    unfold safeParseJson
    rw [hv]
  · intro raw hv
    unfold safeParseJson
    rw [hv]

/-- C5 (witness): the amended theorem's strict-parse clause applied to the
input `"5"`. -/
theorem claim5_witness : safeParseJson "5" = .ok (.num 5) :=
  claim5_lenient_extraction.2.2.2.1 "5" (.num 5) (by decide)

/-- Whether an (optionally present) value is a non-empty array. -/
def isNonEmptyArrO : Option JSValue → Bool
  | some (.arr (_ :: _) _) => true
  | _ => false

/-- C8: with the API credential absent (empty `OPENAI_API_KEY`) the model
client fails with the configuration error before any outbound call (zero
network calls), for every request; consequently each of the four
generation-family endpoints — OCR, generate-course, analyze-test and
focused-course — fails the same way on every input that reaches its model
invocation. -/
theorem claim8_missing_credential :
    (∀ (net : Net) (idx : ℕ) (req : OAIRequest),
      openaiResponses "" net idx req = (.error .config, 0)) ∧
    (∀ (net : Net) (vm : String) (body : JSValue),
      truthyO (getFieldOpt body "imageDataUrl") = true →
      ocrImage "" net vm body = (.serverError .config, 0)) ∧
    (∀ (net : Net) (m : String) (body : JSValue) (s : String),
      getFieldOpt body "syllabusText" = some (.str s) → s ≠ "" →
      generateCourse "" net m body = (.serverError .config, 0)) ∧
    (∀ (net : Net) (m : String) (body : JSValue) ws ps,
      getFieldOpt body "wrong" = some (.arr ws ps) →
      analyzeTest "" net m body = (.serverError .config, 0)) ∧
    (∀ (net : Net) (m : String) (body : JSValue) ws ps p,
      truthyO (getFieldOpt body "originalCourse") = true →
      getFieldOpt body "wrongAnswers" = some (.arr ws ps) → ws ≠ [] →
      buildFocusedPrompt (orNull (getFieldOpt body "originalCourse")) (.arr ws ps)
        (getFieldOpt body "priorAnalysis") (getFieldOpt body "sourceText")
        (getFieldOpt body "settings") = .ok p →
      focusedCourse "" net m body = (.serverError .config, 0)) := by
  refine ⟨?_, ?_, ?_, ?_, ?_⟩
  · intro net idx req
    simp [openaiResponses]
  · intro net vm body h
    simp [ocrImage, h, openaiResponses]
  · intro net m body s hst hs
    simp [generateCourse, hst, truthyO, truthy, hs, openaiResponses]
  · intro net m body ws ps hw
    simp [analyzeTest, hw, openaiResponses]
  · intro net m body ws ps p horig hwa hne hp
    have hempty : ws.isEmpty = false := by
      cases ws with
      | nil => exact absurd rfl hne
      | cons w ws2 => rfl
    simp [focusedCourse, horig, hwa, hempty, hp, openaiResponses]

/-- C8 (witness): the conjuncts applied to concrete bodies with the
credential empty. -/
theorem claim8_witness :
    ocrImage "" (fun _ _ => ⟨true, 200, .null⟩) "vm"
        (.obj [("imageDataUrl", .str "data:img")]) = (.serverError .config, 0) ∧
    generateCourse "" (fun _ _ => ⟨true, 200, .null⟩) "m"
        (.obj [("syllabusText", .str "syl")]) = (.serverError .config, 0) ∧
    analyzeTest "" (fun _ _ => ⟨true, 200, .null⟩) "m"
        (.obj [("wrong", .arr [] [])]) = (.serverError .config, 0) ∧
    focusedCourse "" (fun _ _ => ⟨true, 200, .null⟩) "m"
        (.obj [("originalCourse", .obj []), ("wrongAnswers", .arr [.str "w"] [])]) =
      (.serverError .config, 0) := by
  refine ⟨?_, ?_, ?_, ?_⟩
  · exact claim8_missing_credential.2.1 _ "vm" _ (by decide)
  · exact claim8_missing_credential.2.2.1 _ "m" _ "syl" (by decide) (by decide)
  · exact claim8_missing_credential.2.2.2.1 _ "m" _ [] [] (by decide)
  · exact claim8_missing_credential.2.2.2.2 _ "m" _ [.str "w"] []
      (buildFocusedPrompt (.obj []) (.arr [.str "w"] []) none none none).toOption.get!
      (by decide) (by decide) (by decide) (by rfl)

/-- C9: the focused-course flow rejects with a 400 validation error and
performs no network call whenever `wrongAnswers` is missing, not an array,
or empty — whether or not `originalCourse` is present — and it reaches the
model call only when `wrongAnswers` is a non-empty array. -/
theorem claim9_wrong_answers_required (key : String) (net : Net)
    (cfgModel : String) (body : JSValue) :
    (isNonEmptyArrO (getFieldOpt body "wrongAnswers") = false →
      ((focusedCourse key net cfgModel body).1 =
          .badRequest "originalCourse is required" ∨
        (focusedCourse key net cfgModel body).1 =
          .badRequest "wrongAnswers must be a non-empty array") ∧
      (focusedCourse key net cfgModel body).2 = 0) ∧
    ((focusedCourse key net cfgModel body).2 ≠ 0 →
      isNonEmptyArrO (getFieldOpt body "wrongAnswers") = true) := by
  constructor
  · intro hbad
    by_cases horig : truthyO (getFieldOpt body "originalCourse") = true
    · cases hwa : getFieldOpt body "wrongAnswers" with
      | none => simp [focusedCourse, horig, hwa]
      | some v =>
        cases v with
        | arr ws ps =>
          cases ws with
          | nil => simp [focusedCourse, horig, hwa]
          | cons w ws2 =>
            rw [hwa] at hbad
            simp [isNonEmptyArrO] at hbad
        | null => simp [focusedCourse, horig, hwa]
        | bool b => simp [focusedCourse, horig, hwa]
        | num c => simp [focusedCourse, horig, hwa]
        | str s2 => simp [focusedCourse, horig, hwa]
        | obj fs => simp [focusedCourse, horig, hwa]
    · have horig' : truthyO (getFieldOpt body "originalCourse") = false := by
        simpa using horig
      simp [focusedCourse, horig']
  · intro hcalls
    by_cases hgood : isNonEmptyArrO (getFieldOpt body "wrongAnswers") = true
    · exact hgood
    · exfalso
      have hbad : isNonEmptyArrO (getFieldOpt body "wrongAnswers") = false := by
        simpa using hgood
      by_cases horig : truthyO (getFieldOpt body "originalCourse") = true
      · cases hwa : getFieldOpt body "wrongAnswers" with
        | none => exact hcalls (by simp [focusedCourse, horig, hwa])
        | some v =>
          cases v with
          | arr ws ps =>
            cases ws with
            | nil => exact hcalls (by simp [focusedCourse, horig, hwa])
            | cons w ws2 =>
              rw [hwa] at hbad
              simp [isNonEmptyArrO] at hbad
          | null => exact hcalls (by simp [focusedCourse, horig, hwa])
          | bool b => exact hcalls (by simp [focusedCourse, horig, hwa])
          | num c => exact hcalls (by simp [focusedCourse, horig, hwa])
          | str s2 => exact hcalls (by simp [focusedCourse, horig, hwa])
          | obj fs => exact hcalls (by simp [focusedCourse, horig, hwa])
      · have horig' : truthyO (getFieldOpt body "originalCourse") = false := by
          simpa using horig
        exact hcalls (by simp [focusedCourse, horig'])

/-- C9 (witness): empty `wrongAnswers` with `originalCourse` present is
rejected without a network call. -/
theorem claim9_witness :
    ((focusedCourse "k" (fun _ _ => ⟨true, 200, .null⟩) "m"
        (.obj [("originalCourse", .obj []), ("wrongAnswers", .arr [] [])])).1 =
          .badRequest "originalCourse is required" ∨
      (focusedCourse "k" (fun _ _ => ⟨true, 200, .null⟩) "m"
        (.obj [("originalCourse", .obj []), ("wrongAnswers", .arr [] [])])).1 =
          .badRequest "wrongAnswers must be a non-empty array") ∧
    (focusedCourse "k" (fun _ _ => ⟨true, 200, .null⟩) "m"
        (.obj [("originalCourse", .obj []), ("wrongAnswers", .arr [] [])])).2 = 0 :=
  (claim9_wrong_answers_required "k" (fun _ _ => ⟨true, 200, .null⟩) "m"
    (.obj [("originalCourse", .obj []), ("wrongAnswers", .arr [] [])])).1 (by decide)

/-- An upstream response whose body carries the extracted text in the
`output_text` convenience field. -/
def respText (s : String) : NetResp :=
  ⟨true, 200, .obj [("output_text", .str s)]⟩

/-- A mocked transport: pass 1 (call 0) answers `p1`, pass 2 answers `p2`. -/
def twoPassNet (p1 p2 : String) : Net :=
  fun n _ => if n = 0 then respText p1 else respText p2

/-- C7 (counterexample): a pass-1 output with no `units`-bearing object
does not fail the generate-course flow.  With pass 1 returning the
parseable object `\x7b"a":1\x7d` (which bears no `units` at all) and pass 2 a
quiz object, the flow succeeds and makes both calls, returning the merged
object. -/
theorem claim7_counterexample :
    generateCourse "k"
      (twoPassNet "\x7b\"a\":1\x7d" "\x7b\"finalTest\":\x7b\"questions\":[]\x7d\x7d") "m"
      (.obj [("syllabusText", .str "syl")]) =
    (.ok (.obj [("jsonText",
      .str "\x7b\"a\":1,\"finalTest\":\x7b\"questions\":[]\x7d\x7d")]), 2) := by
  decide

/-- C7 (amended): the generate-course flow fails — with the error
propagated from the lenient parse — exactly when pass 1's extracted output
contains no parseable JSON object; the failure happens after a single
network call (pass 2 is never attempted).  A parseable pass-1 object
without `units` does not fail: `units` defaults to the empty list and the
flow proceeds to pass 2 (both calls are made). -/
theorem claim7_parse_failure_propagates :
    (∀ (key : String) (net : Net) (cfgModel : String) (body : JSValue)
        (s : String) (d1 : JSValue) (t1 : String) (er : LenientErr),
      key ≠ "" → getFieldOpt body "syllabusText" = some (.str s) → s ≠ "" →
      (∀ req, net 0 req = ⟨true, 200, d1⟩) →
      extractText d1 = .ok t1 → safeParseJson t1 = .error er →
      generateCourse key net cfgModel body =
        (.serverError (liftLenient er), 1)) ∧
    (∀ (key : String) (net : Net) (cfgModel : String) (body : JSValue)
        (s : String) (d1 : JSValue) (t1 : String)
        (fs : List (String × JSValue)),
      key ≠ "" → getFieldOpt body "syllabusText" = some (.str s) → s ≠ "" →
      (∀ req, net 0 req = ⟨true, 200, d1⟩) →
      extractText d1 = .ok t1 → safeParseJson t1 = .ok (.obj fs) →
      lookupF fs "units" = none →
      (generateCourse key net cfgModel body).2 = 2) := by
  constructor
  · intro key net cfgModel body s d1 t1 er hkey hst hs hnet hext hparse
    simp [generateCourse, hst, truthyO, truthy, hs, openaiResponses, hkey,
      hnet, hext, hparse]
  · intro key net cfgModel body s d1 t1 fs hkey hst hs hnet hext hparse hunits
    have houtline : ∃ o, outlineForQuiz (.obj fs) = .ok o := by
      unfold outlineForQuiz
      simp [getFieldOpt, hunits, jsOr]
      exact ⟨_, rfl⟩
    obtain ⟨o, houtline⟩ := houtline
    simp only [generateCourse, hst, truthyO, truthy, hs, openaiResponses, hkey,
      hnet, hext, hparse, houtline]
    simp [hs, hext, hparse, houtline]
    split
    · rename_i x e n heq
      split at heq
      · exact absurd heq (by simp)
      · injection heq with h1 h2
        simp [← h2]
    · rename_i x d2 n heq
      split at heq
      · injection heq with h1 h2
        subst h2
        cases hx1 : extractText d2 with
        | error e2 => simp [hx1]
        | ok t2 =>
          cases hx2 : safeParseJson t2 with
          | error pe => simp [hx1, hx2]
          | ok qz =>
            cases hx3 : mergeFinalTest (JSValue.obj fs) qz with
            | error e3 => simp [hx1, hx2, hx3]
            | ok mg => simp [hx1, hx2, hx3]
      · exact absurd heq (by simp)


/-- C7 (witness): the parse-failure clause applied to a pass-1 output that
contains no JSON at all. -/
theorem claim7_witness :
    generateCourse "k" (twoPassNet "oops" "x") "m"
      (.obj [("syllabusText", .str "syl")]) =
    (.serverError (liftLenient .noJson), 1) :=
  claim7_parse_failure_propagates.1 "k" (twoPassNet "oops" "x") "m"
    (.obj [("syllabusText", .str "syl")]) "syl"
    (.obj [("output_text", .str "oops")]) "oops" .noJson (by decide) (by rfl)
    (by decide) (fun req => rfl) (by decide) (by decide)

/-- C6: the merge step of the two-pass flow attaches the pass-2 object's
`finalTest` onto the pass-1 course object unchanged and unvalidated
(`ft` is arbitrary — no question-count check): with pass 1 returning a
course object without `finalTest` and pass 2 returning an object carrying
one, the flow succeeds after both calls, the merged object keeps the
pass-1 `units` untouched and holds exactly the pass-2 `finalTest`. -/
theorem claim6_merge_attaches_quiz (key : String) (net : Net)
    (cfgModel : String) (body : JSValue) (s t1 t2 : String) (d1 d2 : JSValue)
    (fs : List (String × JSValue)) (qz outline ft : JSValue)
    (hkey : key ≠ "")
    (hst : getFieldOpt body "syllabusText" = some (.str s)) (hs : s ≠ "")
    (hnet0 : ∀ req, net 0 req = ⟨true, 200, d1⟩)
    (hnet1 : ∀ req, net 1 req = ⟨true, 200, d2⟩)
    (hext1 : extractText d1 = .ok t1)
    (hp1 : safeParseJson t1 = .ok (.obj fs))
    (_hnoft : lookupF fs "finalTest" = none)
    (houtline : outlineForQuiz (.obj fs) = .ok outline)
    (hext2 : extractText d2 = .ok t2)
    (hp2 : safeParseJson t2 = .ok qz)
    (hqft : getFieldOpt qz "finalTest" = some ft) :
    generateCourse key net cfgModel body =
      (.ok (.obj [("jsonText",
        .str (jsonStringifyCompact (.obj (setF fs "finalTest" ft))))]), 2) ∧
    lookupF (setF fs "finalTest" ft) "units" = lookupF fs "units" ∧
    lookupF (setF fs "finalTest" ft) "finalTest" = some ft := by
  have hmerge : mergeFinalTest (.obj fs) qz = .ok (.obj (setF fs "finalTest" ft)) := by
    cases qz with
    | null => simp [getFieldOpt] at hqft
    | bool b => simp [getFieldOpt] at hqft
    | num c => simp [getFieldOpt] at hqft
    | str s2 => simp [getFieldOpt] at hqft
    | arr es ps => simp [mergeFinalTest, hqft, setProp]
    | obj fs2 => simp [mergeFinalTest, hqft, setProp]
  refine ⟨?_, ?_, ?_⟩
  · simp [generateCourse, hst, truthyO, truthy, hs, openaiResponses, hkey,
      hnet0, hnet1, hext1, hp1, houtline, hext2, hp2, hmerge]
  · exact lookupF_setF_ne fs "finalTest" "units" ft (by decide)
  · exact lookupF_setF_self fs "finalTest" ft

/-- C6 (witness): the theorem applied to a concrete run — pass 1 yields
`\x7b"units":[]\x7d`, pass 2 yields `\x7b"finalTest":\x7b"questions":[]\x7d\x7d`. -/
theorem claim6_witness :
    generateCourse "k"
      (twoPassNet "\x7b\"units\":[]\x7d" "\x7b\"finalTest\":\x7b\"questions\":[]\x7d\x7d") "m"
      (.obj [("syllabusText", .str "syl")]) =
    (.ok (.obj [("jsonText", .str (jsonStringifyCompact
      (.obj (setF [("units", .arr [] [])] "finalTest"
        (.obj [("questions", .arr [] [])])))))]), 2) :=
  (claim6_merge_attaches_quiz "k"
    (twoPassNet "\x7b\"units\":[]\x7d" "\x7b\"finalTest\":\x7b\"questions\":[]\x7d\x7d") "m"
    (.obj [("syllabusText", .str "syl")]) "syl"
    "\x7b\"units\":[]\x7d" "\x7b\"finalTest\":\x7b\"questions\":[]\x7d\x7d"
    (.obj [("output_text", .str "\x7b\"units\":[]\x7d")])
    (.obj [("output_text", .str "\x7b\"finalTest\":\x7b\"questions\":[]\x7d\x7d")])
    [("units", .arr [] [])] (.obj [("finalTest", .obj [("questions", .arr [] [])])])
    (.obj [("units", .arr [] [])]) (.obj [("questions", .arr [] [])])
    (by decide) (by rfl) (by decide) (fun req => rfl) (fun req => rfl)
    (by decide) (by decide) (by rfl) (by decide) (by decide) (by decide)
    (by rfl)).1


/-- A minimal course-shaped input for the idempotence analysis: one final
test question with four distinct options and `correctAnswer` 0. -/
def c2x : JSValue :=
  .obj [("finalTest", .obj [("questions", .arr
    [.obj [("options", .arr [.str "A", .str "B", .str "C", .str "D"] []),
           ("correctAnswer", .num 0)]] [])])]

/-- The normalization of `c2x` under identity shuffle draws. -/
def c2y : JSValue :=
  .obj [("finalTest", .obj [("questions", .arr
      [.obj [("id", .str "q1"), ("question", .str "Question 1"),
             ("options", .arr [.str "A", .str "B", .str "C", .str "D"] []),
             ("correctAnswer", .num 0), ("explanation", .str "")]] [])]),
    ("courseTitle", .str "Untitled Course"),
    ("courseDescription",
      .str "AI-generated course from the uploaded syllabus."),
    ("units", .arr [] [])]

/-- C2 (counterexample): taken literally, `normalize (normalize x) =
normalize x` is false, because every pass re-shuffles each question's
options with fresh random draws.  On `c2x` a first pass (identity draws)
yields `c2y`, and a second pass whose draws are all 0 rotates the options
and moves `correctAnswer` from 0 to 3, so it does not return `c2y`. -/
theorem claim2_counterexample :
    normalizeCourseJSON idGs c2x = .ok c2y ∧
    normalizeCourseJSON (fun _ _ => 0) c2y ≠ .ok c2y := ⟨by decide, by decide⟩

/-- C2 (amended): the Course Schema Normalizer is idempotent up to the
random re-shuffle of each question's options: every output of a
successful `normalizeCourseJSON` pass (under any random draws `gs`) is
returned unchanged by a second pass whose per-question draws produce the
identity permutation.  All defaulting, unit/lesson normalization, option
truncation and `correctAnswer` clamping are therefore stable; only the
shuffle itself separates `normalize (normalize x)` from `normalize x`. -/
theorem claim2_normalize_idempotent (gs : ℕ → ℕ → ℕ) (x y : JSValue)
    (h : normalizeCourseJSON gs x = .ok y) :
    normalizeCourseJSON idGs y = .ok y := by
  obtain ⟨qs, ft2, hm, hs, hy, -⟩ := normalize_ok_inversion gs x y h
  have hfttr : truthy ft2 = true := setProp_ok_truthy hs
  set F := setF (normFields5 x) "finalTest" ft2 with hFdef
  have hlenqs : qs.length = (inputQuestions x).length := by
    have h0 := mapM_ok_length hm
    simpa [List.enum_length, List.length_mapIdx] using h0
  have hstab : ∀ k (hk : k < qs.length),
      (∀ i', normalizeQuestion i' (qs.get ⟨k, hk⟩) = qs.get ⟨k, hk⟩) ∧
      shuffleQuestionOptions (fun m => m) (qs.get ⟨k, hk⟩) =
        .ok (qs.get ⟨k, hk⟩) := by
    intro k hk
    have hkx : k < (inputQuestions x).length := hlenqs ▸ hk
    have hk2 : k < ((inputQuestions x).mapIdx normalizeQuestion).enum.length := by
      simpa [List.enum_length, List.length_mapIdx] using hkx
    have hget := mapM_ok_get hm k hk2 hk
    have henum : ((inputQuestions x).mapIdx normalizeQuestion).enum.get
        ⟨k, hk2⟩ = (k, normalizeQuestion k ((inputQuestions x).get ⟨k, hkx⟩)) := by
      simp [List.get_eq_getElem, List.getElem_enum, List.getElem_mapIdx]
    rw [henum] at hget
    exact shuffled_question_stable (gs k) k _ _ hget
  have hqstable : qs.mapIdx normalizeQuestion = qs :=
    mapIdx_eq_self _ _ (fun k hk => (hstab k hk).1 k)
  have hmem : ∀ a ∈ qs, shuffleQuestionOptions (fun m => m) a = .ok a := by
    intro a ha
    obtain ⟨⟨k, hk⟩, hget⟩ := List.mem_iff_get.mp ha
    rw [← hget]
    exact (hstab k hk).2
  have hyift : inputFinalTest y = ft2 := by
    rw [hy, hFdef]
    unfold inputFinalTest
    simp only [spreadFields, lookupF_setF_self]
    exact jsOr_of_truthy _ _ hfttr
  have hyiq : inputQuestions y = qs := by
    unfold inputQuestions
    rw [hyift, getFieldOpt_setProp (by decide) hs]
  have hm2 : ((inputQuestions y).mapIdx normalizeQuestion).enum.mapM
      (fun p => shuffleQuestionOptions (idGs p.1) p.2) = .ok qs := by
    rw [hyiq, hqstable]
    exact enum_mapM_id (shuffleQuestionOptions (fun m => m)) qs hmem
  have hs2 : setProp (inputFinalTest y) "questions" (.arr qs []) = .ok ft2 := by
    rw [hyift]
    exact setProp_idem hs
  have hfinal := normalize_ok_of idGs y hm2 hs2
  obtain ⟨ctv, hct0, hcttr⟩ := lookupF_normFields5_ct x
  obtain ⟨cdv, hcd0, hcdtr⟩ := lookupF_normFields5_cd x
  obtain ⟨L, hun0⟩ := lookupF_normFields5_units x
  have hctF : lookupF F "courseTitle" = some ctv := by
    rw [hFdef, lookupF_setF_ne _ _ _ _ (by decide), hct0]
  have hcdF : lookupF F "courseDescription" = some cdv := by
    rw [hFdef, lookupF_setF_ne _ _ _ _ (by decide), hcd0]
  have hunF : lookupF F "units" = some (.arr (L.mapIdx normalizeUnit) []) := by
    rw [hFdef, lookupF_setF_ne _ _ _ _ (by decide), hun0]
  have hftF : lookupF F "finalTest" = some ft2 := by
    rw [hFdef]
    exact lookupF_setF_self _ _ _
  rw [hfinal, hy,
    normFields5_fix F ctv cdv ft2 L hctF hcttr hcdF hcdtr hunF hftF hfttr,
    setF_of_lookup F "finalTest" ft2 hftF]

/-- C2 witness: the amended theorem applied at `c2x`, whose first pass
(identity draws) returns `c2y`; the second pass returns `c2y` unchanged. -/
theorem claim2_witness :
    normalizeCourseJSON idGs c2x = .ok c2y ∧
    normalizeCourseJSON idGs c2y = .ok c2y :=
  ⟨by decide, claim2_normalize_idempotent idGs c2x c2y (by decide)⟩


end Claims
